import Mathlib

/-!
Verification of the stripzip ZIP purifier (src/src/stripzip_app.c, src/src/err.h).

The archive is modelled as a list of bytes (`List Nat`, little-endian multi-byte
fields).  The C program's stateful walk over the open file is embedded as
explicit state passing over a `St` record holding the file bytes, the stream
position and an oracle of write faults (each `fwrite` call consults the next
oracle entry; an empty oracle means every write transfers fully, which models a
healthy disk).  Machine integers are `Nat` with field widths enforced by the
byte-level decoding, exactly as the packed structs of the C source lay them
out.  Fallible steps return `Option`: `none` marks a run whose behaviour the C
source leaves undefined (a read or write past the in-memory extra-field
buffer), and is never produced on the archives the theorems below talk about.
-/

/-- Little-endian 16-bit field of a byte list at index `i`
(out-of-range bytes read as 0; callers establish bounds separately). -/
def le16 (b : List Nat) (i : Nat) : Nat :=
  b.getD i 0 + 256 * b.getD (i + 1) 0

/-- Little-endian 32-bit field of a byte list at index `i`. -/
def le32 (b : List Nat) (i : Nat) : Nat :=
  b.getD i 0 + 256 * b.getD (i + 1) 0 + 65536 * b.getD (i + 2) 0 + 16777216 * b.getD (i + 3) 0

/-- `const uint32_t FILE_HEADER_SIGNATURE = 0x04034b50`. -/
def FILE_HEADER_SIGNATURE : Nat := 0x04034b50

/-- `const uint32_t CENDIR_HEADER_SIGNATURE = 0x02014b50`. -/
def CENDIR_HEADER_SIGNATURE : Nat := 0x02014b50

/-- `const uint32_t EO_CENDIR_HEADER_SIGNATURE = 0x06054b50`. -/
def EO_CENDIR_HEADER_SIGNATURE : Nat := 0x06054b50

/-- `GP_BIT_ENC_MARKERS`: bits 0, 6 and 13 (encryption, strong encryption,
central-directory encryption). -/
def GP_BIT_ENC_MARKERS : Nat := 0x1 + 0x40 + 0x2000

/-- `GP_BIT_UNKNOWN_FLAG_MASK`: the 16-bit complement of the known
general-purpose bits 0, 1-2, 3, 4, 5, 6, 11 and 13. -/
def GP_BIT_UNKNOWN_FLAG_MASK : Nat :=
  0xFFFF - (0x1 + 0x6 + 0x8 + 0x10 + 0x20 + 0x40 + 0x800 + 0x2000)

/-- `#define STRIPZIP_OPTION_HEADER 0xFFFF`. -/
def STRIPZIP_OPTION_HEADER : Nat := 0xFFFF

/-- `memset(l + i, v, n)` on a byte list: set `n` bytes starting at `i` to `v`. -/
def setRange (l : List Nat) (i n v : Nat) : List Nat :=
  match n with
  | 0 => l
  | m + 1 => setRange (l.set i v) (i + 1) m v

/-- Zero the four bytes at `i .. i+3` of a record image: this is
`hdr.last_mod_time = 0; hdr.last_mod_date = 0;` on the packed struct
(time and date are adjacent 16-bit fields). -/
def zero4 (l : List Nat) (i : Nat) : List Nat :=
  (((l.set i 0).set (i + 1) 0).set (i + 2) 0).set (i + 3) 0

/-- Result of `purify_extra_data`: `ok` is the C function returning true with
the buffer mutated in place; `unknown id len` is the C function printing the
unknown extra header id and its length and returning false. -/
inductive PRes where
  | ok (buf : List Nat)
  | unknown (id hlen : Nat) (buf : List Nat)
deriving DecidableEq, Repr

/-- Loop of `purify_extra_data` (stripzip_app.c lines 118-152), with an explicit
fuel argument so the definition is structural (the loop advances `offset` by at
least 4 per iteration, so fuel `len` can never run out when started at offset
0; the lemma `purifyAux_fuel_irrel` makes that precise).  `none` models the
undefined behaviour of reading the 4-byte sub-record header, or `memset`-ing
the payload, past the end of the in-memory buffer. -/
def purifyAux (len : Nat) : Nat → Nat → List Nat → Option PRes
  | fuel, offset, buf =>
    if offset < len then
      match fuel with
      | 0 => none
      | fu + 1 =>
        if offset + 4 ≤ buf.length then
          let id := le16 buf offset
          let hlen := le16 buf (offset + 2)
          if id = 0x5455 ∨ id = 0x7875 then
            if offset + 4 + hlen ≤ buf.length then
              purifyAux len fu (offset + 4 + hlen)
                (setRange ((buf.set offset 0xFF).set (offset + 1) 0xFF) (offset + 4) hlen 0xFF)
            else none
          else if id = STRIPZIP_OPTION_HEADER then
            purifyAux len fu (offset + 4 + hlen) buf
          else some (.unknown id hlen buf)
        else none
    else some (.ok buf)

/-- `bool purify_extra_data(size_t len, void* extra_data)` applied to an
in-memory buffer of physical length `extra_data.length` with declared
extra-field length `len`. -/
def purify_extra_data (len : Nat) (buf : List Nat) : Option PRes :=
  purifyAux len len 0 buf

/-- State of the open archive stream: the file bytes, the stream position, and
the write-fault oracle (`fwrite` consults one entry per call; `true` means the
underlying write transfers nothing, `false` or an exhausted oracle means the
write transfers fully). -/
structure St where
  file : List Nat
  pos : Nat
  faults : List Bool
deriving DecidableEq, Repr

/-- `fread(ptr, n, 1, fd)`: returns the element count (1 on a full read, 0
otherwise), the bytes read, and the new state.  Per the C standard a zero-size
`fread` returns 0; a read past end-of-file transfers what is available and
leaves the position at end-of-file. -/
def fread (n : Nat) (st : St) : Nat × List Nat × St :=
  if n = 0 then (0, [], st)
  else if st.pos + n ≤ st.file.length then
    (1, (st.file.drop st.pos).take n, { st with pos := st.pos + n })
  else (0, [], { st with pos := max st.pos st.file.length })

/-- Raw byte-range store: overwrite `d.length` bytes of `f` starting at `p`
(writing past end-of-file would first pad with zero bytes, as on a POSIX file;
the walker is proved never to do so). -/
def writeN (f : List Nat) (p : Nat) (d : List Nat) : List Nat :=
  f.take p ++ List.replicate (p - f.length) 0 ++ d ++ f.drop (p + d.length)

/-- `fwrite(ptr, n, 1, fd)`: consult the fault oracle; on a full write the
bytes land in the file and the position advances, on a faulted (short) write
nothing is transferred.  Returns the element count (1 or 0). -/
def fwrite (d : List Nat) (st : St) : Nat × St :=
  match st.faults with
  | [] => (1, { st with file := writeN st.file st.pos d, pos := st.pos + d.length })
  | b :: rest =>
    if b then (0, { st with faults := rest })
    else (1, { file := writeN st.file st.pos d, pos := st.pos + d.length, faults := rest })

/-- Whence argument of `fseek`. -/
inductive Whence where
  | set
  | cur
  | fromEnd
deriving DecidableEq, Repr

/-- `fseek(fd, off, whence)`: returns 0 and moves the position when the target
is non-negative (seeking past end-of-file is allowed), returns -1 and leaves
the position unchanged when the target is negative. -/
def fseek (off : Int) (w : Whence) (st : St) : Int × St :=
  let target : Int :=
    match w with
    | .set => off
    | .cur => (st.pos : Int) + off
    | .fromEnd => (st.file.length : Int) + off
  if target < 0 then (-1, st) else (0, { st with pos := target.toNat })

/-- `void overwrite_field(void* data, size_t len, FILE *fd)` (stripzip_app.c
lines 104-108): seek back by the length and write the buffer.  The result of
`fwrite` is fed to `ERR_IF_NEQ`, which only prints on a mismatch — a short
write is reported but not propagated, and the function returns normally. -/
def overwrite_field (data : List Nat) (st : St) : St :=
  let st1 := (fseek (-(data.length : Int)) .cur st).2
  (fwrite data st1).2

/-- Extra-field phase of the walker (stripzip_app.c lines 230-235 and 264-269):
when the extra-field length is nonzero, read it, purify it, and rewrite it in
place; a short read or an unknown extra header returns -1 from `main`. -/
def extraPhase (e : Nat) (st : St) : Option (Option Int × St) :=
  if e = 0 then some (none, st)
  else
    match fread e st with
    | (r, b, st1) =>
      if r ≠ 1 then some (some (-1), st1)
      else
        match purify_extra_data e b with
        | none => none
        | some (.unknown _ _ _) => some (some (-1), st1)
        | some (.ok b2) => some (none, overwrite_field b2 st1)

/-- One iteration of the central-directory loop of `main` (stripzip_app.c lines
191-272): decode and validate the central-directory entry, zero its timestamp
and rewrite it, read the name and comment, purify the extra field, then seek to
the referenced local file header, validate it, zero its timestamp and rewrite
it, purify its extra field, and seek back.  `some (some r, st)` is an early
`return r` from `main`, `some (none, st)` continues with the next entry. -/
def processEntry (st : St) : Option (Option Int × St) :=
  match fread 46 st with
  | (r1, cdb0, st) =>
  if r1 ≠ 1 then some (some (-1), st)
  else if le32 cdb0 0 ≠ CENDIR_HEADER_SIGNATURE then some (some (-1), st)
  else if Nat.land (le16 cdb0 8) GP_BIT_ENC_MARKERS ≠ 0 then some (some (-1), st)
  else if Nat.land (le16 cdb0 8) GP_BIT_UNKNOWN_FLAG_MASK ≠ 0 then some (some (-1), st)
  else
    let cdb := zero4 cdb0 12
    let st := overwrite_field cdb st
    match fread (le16 cdb 28) st with
    | (r2, _name, st) =>
    if r2 ≠ 1 then some (some (-1), st)
    else
      match
        (if 0 < le16 cdb 32 then
          match fread (le16 cdb 32) st with
          | (rc, _comment, stc) => if rc ≠ 1 then (some (-1 : Int), stc) else (none, stc)
        else (none, st)) with
      | (some r, st) => some (some r, st)
      | (none, st) =>
        match extraPhase (le16 cdb 30) st with
        | none => none
        | some (some r, st) => some (some r, st)
        | some (none, st) =>
          let cur := st.pos
          let st := (fseek (le32 cdb 42) .set st).2
          match fread 30 st with
          | (r3, lfb0, st) =>
          if r3 ≠ 1 then some (some (-1), st)
          else if le32 lfb0 0 ≠ FILE_HEADER_SIGNATURE then some (some (-1), st)
          else if Nat.land (le16 lfb0 6) GP_BIT_ENC_MARKERS ≠ 0 then some (some (-1), st)
          else if Nat.land (le16 lfb0 6) GP_BIT_UNKNOWN_FLAG_MASK ≠ 0 then some (some (-1), st)
          else
            let lfb := zero4 lfb0 10
            let st := overwrite_field lfb st
            let st := (fseek (le16 lfb 26) .cur st).2
            match extraPhase (le16 lfb 28) st with
            | none => none
            | some (some r, st) => some (some r, st)
            | some (none, st) => some (none, (fseek cur .set st).2)

/-- The central-directory loop of `main` (stripzip_app.c lines 191-272),
iterated `total_num_entries_cd` times; falling off the loop closes the file
and returns 0. -/
def cdLoop : Nat → St → Option (Int × St)
  | 0, st => some (0, st)
  | k + 1, st =>
    match processEntry st with
    | none => none
    | some (some r, st1) => some (r, st1)
    | some (none, st1) => cdLoop k st1

/-- `int main(int argc, char** argv)` on an opened archive (stripzip_app.c
lines 163-276): locate and validate the end-of-central-directory trailer, then
run the central-directory loop.  The command-line handling and `fopen` are
outside the model; `faults` is the write-fault oracle of the environment. -/
def mainFn (f : List Nat) (faults : List Bool) : Option (Int × St) :=
  let st0 : St := ⟨f, 0, faults⟩
  match fseek (-22) .fromEnd st0 with
  | (rs, st) =>
  if rs < 0 then some (-1, st)
  else
    match fread 22 st with
    | (r, eb, st) =>
    if r ≠ 1 then some (-1, st)
    else if le32 eb 0 ≠ EO_CENDIR_HEADER_SIGNATURE then some (-1, st)
    else if le16 eb 4 ≠ 0 then some (-1, st)
    else if le32 eb 12 = 0xFFFFFFFF then some (-1, st)
    else
      let st := (fseek (le32 eb 16) .set st).2
      cdLoop (le16 eb 10) st

/-- Run of the program on an archive: the exit code and the final archive
bytes. -/
def mainRun (f : List Nat) (faults : List Bool) : Option (Int × List Nat) :=
  (mainFn f faults).map fun p => (p.1, p.2.file)

/-- Read `n` bytes of `f` starting at index `p` (`none` past end-of-file). -/
def readN (f : List Nat) (p n : Nat) : Option (List Nat) :=
  if p + n ≤ f.length then some ((f.drop p).take n) else none

/-- Walk the central directory of `f` for `k` entries starting at `q`, and
check that every central-directory record and every local file header it
designates carries the central-directory (resp. local) signature and has
`last_mod_time = 0` and `last_mod_date = 0`. -/
def checkEntries (f : List Nat) : Nat → Nat → Bool
  | 0, _ => true
  | k + 1, q =>
    match readN f q 46 with
    | none => false
    | some cdb =>
      decide (le32 cdb 0 = CENDIR_HEADER_SIGNATURE) &&
      decide (le16 cdb 12 = 0) && decide (le16 cdb 14 = 0) &&
      (match readN f (le32 cdb 42) 30 with
       | none => false
       | some lfb =>
         decide (le32 lfb 0 = FILE_HEADER_SIGNATURE) &&
         decide (le16 lfb 10 = 0) && decide (le16 lfb 12 = 0)) &&
      checkEntries f k (q + 46 + le16 cdb 28 + le16 cdb 32 + le16 cdb 30)

/-- The timestamp-erasure property of an archive: every central-directory
entry listed by the end-of-central-directory trailer, and every local file
header such an entry references, has both last-modified fields equal to 0. -/
def timestampsZeroed (f : List Nat) : Bool :=
  match readN f (f.length - 22) 22 with
  | none => false
  | some eb => checkEntries f (le16 eb 10) (le32 eb 16)

/-- Static layout of one central-directory entry: position `q` of its record,
its name/comment/extra-field lengths `n`/`c`/`e`, the position `r` of its local
file header, and the local header's name/extra-field lengths `ln`/`lfe`. -/
structure EL where
  q : Nat
  n : Nat
  c : Nat
  e : Nat
  r : Nat
  ln : Nat
  lfe : Nat
deriving DecidableEq, Repr

/-- Decode the layout of the entry whose central-directory record is at `q`. -/
def readEntryLayout (f : List Nat) (q : Nat) : Option EL :=
  match readN f q 46 with
  | none => none
  | some cdb =>
    match readN f (le32 cdb 42) 30 with
    | none => none
    | some lfb =>
      some ⟨q, le16 cdb 28, le16 cdb 32, le16 cdb 30, le32 cdb 42, le16 lfb 26, le16 lfb 28⟩

/-- Layouts of `k` consecutive central-directory entries starting at `q`. -/
def layoutsAux (f : List Nat) : Nat → Nat → Option (List EL)
  | 0, _ => some []
  | k + 1, q =>
    match readEntryLayout f q with
    | none => none
    | some el => (layoutsAux f k (q + 46 + el.n + el.c + el.e)).map (el :: ·)

/-- The two byte regions the walker rewrites for one entry, as
(start, length) pairs: the whole central-directory span (record, name, comment
and extra field) and the whole local-header span (record, name and extra
field). -/
def spansOf (el : EL) : List (Nat × Nat) :=
  [(el.q, 46 + el.n + el.c + el.e), (el.r, 30 + el.ln + el.lfe)]

/-- All rewrite regions of a list of entries. -/
def allSpans (els : List EL) : List (Nat × Nat) :=
  els.flatMap spansOf

/-- Two (start, length) regions do not overlap. -/
def SpansDisj (a b : Nat × Nat) : Prop :=
  a.1 + a.2 ≤ b.1 ∨ b.1 + b.2 ≤ a.1

instance (a b : Nat × Nat) : Decidable (SpansDisj a b) := by
  unfold SpansDisj; infer_instance

/-- Index `p` lies in the (start, length) region `s`. -/
def InSpan (s : Nat × Nat) (p : Nat) : Prop :=
  s.1 ≤ p ∧ p < s.1 + s.2

/-- Static validity of one entry against the archive bytes `f`: the
central-directory record and local file header exist, carry the right
signatures and only known, non-encryption general-purpose bits, the name is
non-empty, the entry's spans lie inside the file, and both extra fields (when
present) purify successfully. -/
def entryValidB (f : List Nat) (el : EL) : Bool :=
  match readN f el.q 46, readN f el.r 30 with
  | some cdb, some lfb =>
    decide (le32 cdb 0 = CENDIR_HEADER_SIGNATURE) &&
    decide (Nat.land (le16 cdb 8) GP_BIT_ENC_MARKERS = 0) &&
    decide (Nat.land (le16 cdb 8) GP_BIT_UNKNOWN_FLAG_MASK = 0) &&
    decide (1 ≤ el.n) &&
    decide (le32 lfb 0 = FILE_HEADER_SIGNATURE) &&
    decide (Nat.land (le16 lfb 6) GP_BIT_ENC_MARKERS = 0) &&
    decide (Nat.land (le16 lfb 6) GP_BIT_UNKNOWN_FLAG_MASK = 0) &&
    (if el.e = 0 then true
     else match readN f (el.q + 46 + el.n + el.c) el.e with
       | some b =>
         match purify_extra_data el.e b with
         | some (.ok _) => true
         | _ => false
       | none => false) &&
    (if el.lfe = 0 then true
     else match readN f (el.r + 30 + el.ln) el.lfe with
       | some b =>
         match purify_extra_data el.lfe b with
         | some (.ok _) => true
         | _ => false
       | none => false)
  | _, _ => false

/-- Static well-formedness of a whole archive: a good trailer, a decodable
central directory whose entries are all valid, and rewrite regions that are
pairwise disjoint and stay clear of the trailer.  This is the hypothesis under
which the walker's writes cannot interfere with one another. -/
def staticOK (f : List Nat) : Bool :=
  match readN f (f.length - 22) 22 with
  | none => false
  | some eb =>
    decide (le32 eb 0 = EO_CENDIR_HEADER_SIGNATURE) &&
    decide (le16 eb 4 = 0) &&
    decide (le32 eb 12 ≠ 0xFFFFFFFF) &&
    match layoutsAux f (le16 eb 10) (le32 eb 16) with
    | none => false
    | some els =>
      els.all (entryValidB f) &&
      decide (List.Pairwise SpansDisj (allSpans els)) &&
      (allSpans els).all fun s => decide (s.1 + s.2 + 22 ≤ f.length)

/-- The purified image of the extra field of length `e` at position `x` of the
original archive (junk when purification fails; only used under validity). -/
def purifyOut (f0 : List Nat) (x e : Nat) : List Nat :=
  match purify_extra_data e ((f0.drop x).take e) with
  | some (.ok b) => b
  | _ => []

/-- The four in-place writes the walker performs for one entry, applied to `g`,
with all write contents computed from the original archive `f0` (under
disjointness the walker reads exactly the original bytes of the entry). -/
def applyEntry (f0 g : List Nat) (el : EL) : List Nat :=
  let cdb := (f0.drop el.q).take 46
  let lfb := (f0.drop el.r).take 30
  let g1 := writeN g el.q (zero4 cdb 12)
  let g2 := if el.e = 0 then g1
            else writeN g1 (el.q + 46 + el.n + el.c) (purifyOut f0 (el.q + 46 + el.n + el.c) el.e)
  let g3 := writeN g2 el.r (zero4 lfb 10)
  if el.lfe = 0 then g3
  else writeN g3 (el.r + 30 + el.ln) (purifyOut f0 (el.r + 30 + el.ln) el.lfe)

/-- The walker's whole transformation: apply every entry's writes in order. -/
def applyEntries (f0 : List Nat) : List EL → List Nat → List Nat
  | [], g => g
  | el :: rest, g => applyEntries f0 rest (applyEntry f0 g el)

/-- Offsets of the extra-field sub-records that the purification loop visits,
computed over the unmodified buffer: starting at 0, each sub-record at `o`
with declared payload length `le16 b (o+2)` is followed by the one at
`o + 4 + le16 b (o+2)`, until the declared extra-field length is exhausted. -/
def visitsAux (len : Nat) (b : List Nat) : Nat → Nat → List Nat
  | 0, _ => []
  | fu + 1, o =>
    if o < len then o :: visitsAux len b fu (o + 4 + le16 b (o + 2))
    else []

/-- The sub-record offsets of an extra-field buffer of declared length
`len`. -/
def subrecordOffsets (len : Nat) (b : List Nat) : List Nat :=
  visitsAux len b len 0

/-- A well-formed single-entry archive with nonzero timestamps in both the
central-directory record (at 31, time/date bytes 43..46) and the local file
header (at 0, time/date bytes 10..13), a one-byte name and no extra fields. -/
def archOK : List Nat := [80, 75, 3, 4, 0, 0, 0, 0, 0, 0, 52, 18, 120, 86, 0, 0, 0, 0, 0, 0, 0, 0, 0, 0, 0, 0, 1, 0, 0, 0, 204, 80, 75, 1, 2, 0, 0, 0, 0, 0, 0, 0, 0, 69, 35, 137, 103, 0, 0, 0, 0, 0, 0, 0, 0, 0, 0, 0, 0, 1, 0, 0, 0, 0, 0, 0, 0, 0, 0, 0, 0, 0, 0, 0, 0, 0, 0, 221, 80, 75, 5, 6, 0, 0, 0, 0, 1, 0, 1, 0, 144, 0, 0, 0, 31, 0, 0, 0, 0, 0]

/-- Like `archOK` but the local file header has general-purpose bit 0
(encryption) set, while the central-directory record's bits are clean. -/
def archC6 : List Nat := [80, 75, 3, 4, 0, 0, 1, 0, 0, 0, 52, 18, 120, 86, 0, 0, 0, 0, 0, 0, 0, 0, 0, 0, 0, 0, 1, 0, 0, 0, 204, 80, 75, 1, 2, 0, 0, 0, 0, 0, 0, 0, 0, 69, 35, 137, 103, 0, 0, 0, 0, 0, 0, 0, 0, 0, 0, 0, 0, 1, 0, 0, 0, 0, 0, 0, 0, 0, 0, 0, 0, 0, 0, 0, 0, 0, 0, 221, 80, 75, 5, 6, 0, 0, 0, 0, 1, 0, 1, 0, 144, 0, 0, 0, 31, 0, 0, 0, 0, 0]

/-- Like `archOK` but the central-directory record declares a file-name length
of 0 (a structurally legal ZIP the tool nevertheless rejects). -/
def archC10 : List Nat := [80, 75, 3, 4, 0, 0, 0, 0, 0, 0, 52, 18, 120, 86, 0, 0, 0, 0, 0, 0, 0, 0, 0, 0, 0, 0, 1, 0, 0, 0, 204, 80, 75, 1, 2, 0, 0, 0, 0, 0, 0, 0, 0, 69, 35, 137, 103, 0, 0, 0, 0, 0, 0, 0, 0, 0, 0, 0, 0, 0, 0, 0, 0, 0, 0, 0, 0, 0, 0, 0, 0, 0, 0, 0, 0, 0, 0, 221, 80, 75, 5, 6, 0, 0, 0, 0, 1, 0, 1, 0, 144, 0, 0, 0, 31, 0, 0, 0, 0, 0]

/-- A single-entry archive whose central-directory extra field holds one
sub-record with the unknown id 0x9999 (extra field at bytes 78..81). -/
def archC8 : List Nat := [80, 75, 3, 4, 0, 0, 0, 0, 0, 0, 0, 0, 0, 0, 0, 0, 0, 0, 0, 0, 0, 0, 0, 0, 0, 0, 1, 0, 0, 0, 204, 80, 75, 1, 2, 0, 0, 0, 0, 0, 0, 0, 0, 0, 0, 0, 0, 0, 0, 0, 0, 0, 0, 0, 0, 0, 0, 0, 0, 1, 0, 4, 0, 0, 0, 0, 0, 0, 0, 0, 0, 0, 0, 0, 0, 0, 0, 221, 153, 153, 0, 0, 80, 75, 5, 6, 0, 0, 0, 0, 1, 0, 1, 0, 144, 0, 0, 0, 31, 0, 0, 0, 0, 0]

/-- A two-entry archive that the tool processes successfully although the
second entry's local-header offset (51) points into the first entry's
central-directory record: processing the second entry's local header zeroes
the first entry's comment-length field, so a re-run walks the central
directory differently and finds a (planted, fully valid) record with nonzero
timestamps inside what used to be the first entry's comment. -/
def archPath : List Nat := [80, 75, 3, 4, 0, 0, 0, 0, 0, 0, 0, 0, 0, 0, 0, 0, 0, 0, 0, 0, 0, 0, 0, 0, 0, 0, 1, 0, 0, 0, 204, 80, 75, 1, 2, 0, 0, 0, 0, 0, 0, 0, 0, 0, 0, 0, 0, 0, 0, 0, 0, 80, 75, 3, 4, 0, 0, 0, 0, 4, 0, 0, 0, 47, 0, 0, 0, 0, 0, 0, 0, 0, 0, 0, 0, 0, 0, 0, 0, 0, 0, 80, 75, 1, 2, 0, 0, 0, 0, 0, 0, 0, 0, 52, 18, 120, 86, 0, 0, 0, 0, 0, 0, 0, 0, 0, 0, 0, 0, 1, 0, 0, 0, 0, 0, 0, 0, 0, 0, 0, 0, 0, 0, 0, 0, 0, 0, 170, 80, 75, 1, 2, 0, 0, 0, 0, 0, 0, 0, 0, 0, 0, 0, 0, 0, 0, 0, 0, 0, 0, 0, 0, 0, 0, 0, 0, 1, 0, 0, 0, 0, 0, 0, 0, 0, 0, 0, 0, 0, 0, 51, 0, 0, 0, 187, 80, 75, 5, 6, 0, 0, 0, 0, 2, 0, 2, 0, 144, 0, 0, 0, 31, 0, 0, 0, 0, 0]

/-- The walker state at the start of `archC6`'s central directory. -/
def st6A : St := ⟨archC6, 31, []⟩

/-- The central-directory record bytes of `archC6`'s entry as read. -/
def cdb6 : List Nat := (fread 46 st6A).2.1

/-- The state after reading `archC6`'s central-directory record. -/
def st6B0 : St := (fread 46 st6A).2.2

/-- The name bytes of `archC6`'s entry as read after the record rewrite. -/
def nm6 : List Nat :=
  (fread (le16 (zero4 cdb6 12) 28) (overwrite_field (zero4 cdb6 12) st6B0)).2.1

/-- The state after rewriting `archC6`'s central-directory record and reading
the entry name. -/
def st6B : St :=
  (fread (le16 (zero4 cdb6 12) 28) (overwrite_field (zero4 cdb6 12) st6B0)).2.2

/-- The local-header bytes of `archC6`'s entry as read. -/
def lfb6 : List Nat :=
  (fread 30 ((fseek ((le32 (zero4 cdb6 12) 42 : Nat) : Int) .set st6B).2)).2.1

/-- The state after seeking to `archC6`'s local header and reading it. -/
def st6F : St :=
  (fread 30 ((fseek ((le32 (zero4 cdb6 12) 42 : Nat) : Int) .set st6B).2)).2.2

theorem getD_eq (l : List Nat) (i : Nat) : l.getD i 0 = (l[i]?).getD 0 :=
  List.getD_eq_getElem?_getD l i 0

theorem readN_some {f : List Nat} {p n : Nat} (h : p + n ≤ f.length) :
    readN f p n = some ((f.drop p).take n) := by
  simp [readN, h]

theorem readN_bounds {f b : List Nat} {p n : Nat} (h : readN f p n = some b) :
    b.length = n ∧ p + n ≤ f.length := by
  unfold readN at h
  split at h
  · cases h
    refine ⟨?_, by assumption⟩
    simp only [List.length_take, List.length_drop]
    omega
  · cases h

theorem readN_getElem {f b : List Nat} {p n : Nat} (h : readN f p n = some b)
    {t : Nat} (ht : t < n) : b[t]? = f[p + t]? := by
  unfold readN at h
  split at h
  · cases h
    rw [List.getElem?_take, if_pos ht, List.getElem?_drop]
  · cases h

theorem readN_eq_of_agree {f g : List Nat} {p n : Nat}
    (hf : p + n ≤ f.length) (hg : p + n ≤ g.length)
    (hag : ∀ t, t < n → f[p + t]? = g[p + t]?) : readN f p n = readN g p n := by
  rw [readN_some hf, readN_some hg]
  congr 1
  apply List.ext_getElem?
  intro x
  rw [List.getElem?_take, List.getElem?_take]
  by_cases hx : x < n
  · rw [if_pos hx, if_pos hx, List.getElem?_drop, List.getElem?_drop, hag x hx]
  · rw [if_neg hx, if_neg hx]

theorem writeN_length {g d : List Nat} {p : Nat} (h : p + d.length ≤ g.length) :
    (writeN g p d).length = g.length := by
  unfold writeN
  rw [List.length_append, List.length_append, List.length_append, List.length_take,
    List.length_replicate, List.length_drop]
  omega

theorem writeN_eq_of_le {g d : List Nat} {p : Nat} (h : p ≤ g.length) :
    writeN g p d = (List.take p g ++ d) ++ List.drop (p + d.length) g := by
  unfold writeN
  have h0 : p - g.length = 0 := by omega
  rw [h0, List.replicate_zero, List.append_nil]

theorem writeN_getElem_out {g d : List Nat} {p x : Nat} (h : p + d.length ≤ g.length)
    (hx : x < p ∨ p + d.length ≤ x) : (writeN g p d)[x]? = g[x]? := by
  rw [writeN_eq_of_le (by omega)]
  have htl : (List.take p g).length = p := by
    rw [List.length_take]
    omega
  have htd : (List.take p g ++ d).length = p + d.length := by
    rw [List.length_append, htl]
  rcases hx with hx | hx
  · rw [List.getElem?_append_left (by rw [htd]; omega),
      List.getElem?_append_left (by rw [htl]; omega),
      List.getElem?_take, if_pos hx]
  · rw [List.getElem?_append_right (by rw [htd]; omega), List.getElem?_drop, htd]
    congr 1
    omega

theorem writeN_getElem_in {g d : List Nat} {p t : Nat} (h : p + d.length ≤ g.length)
    (ht : t < d.length) : (writeN g p d)[p + t]? = d[t]? := by
  rw [writeN_eq_of_le (by omega)]
  have htl : (List.take p g).length = p := by
    rw [List.length_take]
    omega
  have htd : (List.take p g ++ d).length = p + d.length := by
    rw [List.length_append, htl]
  rw [List.getElem?_append_left (by rw [htd]; omega),
    List.getElem?_append_right (by rw [htl]; omega)]
  congr 1
  rw [htl]
  omega

theorem writeN_self {g d : List Nat} {p n : Nat} (h : readN g p n = some d) :
    writeN g p d = g := by
  obtain ⟨hlen, hb⟩ := readN_bounds h
  apply List.ext_getElem?
  intro x
  by_cases h1 : x < p
  · exact writeN_getElem_out (by omega) (Or.inl h1)
  · by_cases h2 : x < p + n
    · have hx : x = p + (x - p) := by omega
      rw [hx, writeN_getElem_in (by omega) (by omega), readN_getElem h (by omega)]
    · exact writeN_getElem_out (by omega) (Or.inr (by omega))

theorem fread_pos {st : St} {n : Nat} (hn : n ≠ 0) (hb : st.pos + n ≤ st.file.length) :
    fread n st = (1, (st.file.drop st.pos).take n, { st with pos := st.pos + n }) := by
  simp [fread, hn, hb]

theorem fseek_set_eq (st : St) (t : Nat) :
    fseek (t : Int) .set st = (0, { st with pos := t }) := by
  simp [fseek]

theorem fseek_cur_eq (st : St) (t : Nat) :
    fseek (t : Int) .cur st = (0, { st with pos := st.pos + t }) := by
  unfold fseek
  have h1 : ¬ ((st.pos : Int) + (t : Int) < 0) := by omega
  rw [if_neg h1]
  have h2 : ((st.pos : Int) + (t : Int)).toNat = st.pos + t := by omega
  rw [h2]

theorem overwrite_field_eq {st : St} {d : List Nat} (hf : st.faults = [])
    (hp : d.length ≤ st.pos) :
    overwrite_field d st =
      { file := writeN st.file (st.pos - d.length) d, pos := st.pos, faults := [] } := by
  unfold overwrite_field fseek fwrite
  have h1 : ¬ ((st.pos : Int) + -(d.length : Int) < 0) := by omega
  simp only [h1, if_neg, if_false]
  have h2 : ((st.pos : Int) + -(d.length : Int)).toNat = st.pos - d.length := by omega
  rw [hf]
  simp only [h2]
  have h3 : st.pos - d.length + d.length = st.pos := by omega
  simp [h3]

theorem zero4_length (l : List Nat) (i : Nat) : (zero4 l i).length = l.length := by
  simp [zero4]

theorem zero4_getElem_out {l : List Nat} {i x : Nat} (hx : x < i ∨ i + 4 ≤ x) :
    (zero4 l i)[x]? = l[x]? := by
  unfold zero4
  rw [List.getElem?_set_ne (by omega), List.getElem?_set_ne (by omega),
    List.getElem?_set_ne (by omega), List.getElem?_set_ne (by omega)]

theorem zero4_getElem_in {l : List Nat} {i t : Nat} (hi : i + 4 ≤ l.length)
    (ht : i ≤ t ∧ t < i + 4) : (zero4 l i)[t]? = some 0 := by
  unfold zero4
  rcases ht with ⟨ht1, ht2⟩
  simp only [List.getElem?_set, List.length_set]
  have : t = i ∨ t = i + 1 ∨ t = i + 2 ∨ t = i + 3 := by omega
  rcases this with h | h | h | h <;> subst h <;> simp <;> omega

theorem le16_congr {b1 b2 : List Nat} {i j : Nat}
    (h0 : b1[i]? = b2[j]?) (h1 : b1[i + 1]? = b2[j + 1]?) : le16 b1 i = le16 b2 j := by
  unfold le16
  rw [getD_eq, getD_eq, getD_eq, getD_eq, h0, h1]

theorem le32_congr {b1 b2 : List Nat} {i j : Nat}
    (h0 : b1[i]? = b2[j]?) (h1 : b1[i + 1]? = b2[j + 1]?)
    (h2 : b1[i + 2]? = b2[j + 2]?) (h3 : b1[i + 3]? = b2[j + 3]?) :
    le32 b1 i = le32 b2 j := by
  unfold le32
  rw [getD_eq, getD_eq, getD_eq, getD_eq, getD_eq, getD_eq, getD_eq, getD_eq, h0, h1, h2, h3]

theorem setRange_length (l : List Nat) (i n v : Nat) : (setRange l i n v).length = l.length := by
  induction n generalizing l i with
  | zero => rfl
  | succ m ih => rw [setRange, ih, List.length_set]

theorem setRange_getElem_out {l : List Nat} {i n v x : Nat} (hx : x < i ∨ i + n ≤ x) :
    (setRange l i n v)[x]? = l[x]? := by
  induction n generalizing l i with
  | zero => rfl
  | succ m ih =>
    rw [setRange, ih (by omega), List.getElem?_set_ne (by omega)]

theorem setRange_getElem_in {l : List Nat} {i n v x : Nat} (hb : i + n ≤ l.length)
    (hx : i ≤ x ∧ x < i + n) : (setRange l i n v)[x]? = some v := by
  induction n generalizing l i with
  | zero => omega
  | succ m ih =>
    rw [setRange]
    by_cases hxi : x = i
    · rw [setRange_getElem_out (by omega), hxi, List.getElem?_set_self (by omega)]
    · exact ih (by rw [List.length_set]; omega) (by omega)

theorem purifyAux_length {len : Nat} : ∀ {fu o : Nat} {b b2 : List Nat},
    purifyAux len fu o b = some (.ok b2) → b2.length = b.length := by
  intro fu
  induction fu with
  | zero =>
    intro o b b2 h
    rw [purifyAux] at h
    split at h
    · exact absurd h (by simp)
    · simp only [Option.some.injEq, PRes.ok.injEq] at h
      rw [h]
  | succ fu ih =>
    intro o b b2 h
    rw [purifyAux] at h
    split at h
    · dsimp only at h
      split at h
      · split at h
        · split at h
          · have := ih h
            rw [this, setRange_length, List.length_set, List.length_set]
          · cases h
        · split at h
          · exact ih h
          · cases h
      · cases h
    · simp only [Option.some.injEq, PRes.ok.injEq] at h
      rw [h]

theorem purifyAux_startBytes {len : Nat} : ∀ {fu o : Nat} {b b2 : List Nat},
    purifyAux len fu o b = some (.ok b2) → ∀ p, p < o → b2[p]? = b[p]? := by
  intro fu
  induction fu with
  | zero =>
    intro o b b2 h p hp
    rw [purifyAux] at h
    split at h
    · exact absurd h (by simp)
    · simp only [Option.some.injEq, PRes.ok.injEq] at h
      rw [h]
  | succ fu ih =>
    intro o b b2 h p hp
    rw [purifyAux] at h
    split at h
    · dsimp only at h
      split at h
      · split at h
        · split at h
          · rw [ih h p (by omega), setRange_getElem_out (by omega),
              List.getElem?_set_ne (by omega), List.getElem?_set_ne (by omega)]
          · cases h
        · split at h
          · exact ih h p (by omega)
          · cases h
      · cases h
    · simp only [Option.some.injEq, PRes.ok.injEq] at h
      rw [h]

theorem purifyAux_unknown {len : Nat} : ∀ {fu o : Nat} {b b2 : List Nat} {id hl : Nat},
    purifyAux len fu o b = some (.unknown id hl b2) →
    id ≠ 0x5455 ∧ id ≠ 0x7875 ∧ id ≠ STRIPZIP_OPTION_HEADER := by
  intro fu
  induction fu with
  | zero =>
    intro o b b2 id hl h
    rw [purifyAux] at h
    split at h
    · exact absurd h (by simp)
    · exact absurd h (by simp)
  | succ fu ih =>
    intro o b b2 id hl h
    rw [purifyAux] at h
    split at h
    · dsimp only at h
      split at h
      · split at h
        next hknown =>
          split at h
          · exact ih h
          · cases h
        · split at h
          next hsent => exact ih h
          next hknown2 hsent =>
            simp only [Option.some.injEq, PRes.unknown.injEq] at h
            obtain ⟨h1, h2, h3⟩ := h
            subst h1
            push_neg at hknown2
            exact ⟨hknown2.1, hknown2.2, hsent⟩
      · cases h
    · exact absurd h (by simp)

theorem le16_of_getElem {b : List Nat} {i x y : Nat}
    (h0 : b[i]? = some x) (h1 : b[i + 1]? = some y) : le16 b i = x + 256 * y := by
  unfold le16
  rw [getD_eq, getD_eq, h0, h1]
  rfl

theorem visitsAux_ge {len : Nat} : ∀ {fu o v : Nat} {b : List Nat},
    v ∈ visitsAux len b fu o → o ≤ v := by
  intro fu
  induction fu with
  | zero => intro o v b h; cases h
  | succ fu ih =>
    intro o v b h
    rw [visitsAux] at h
    split at h
    · rcases List.mem_cons.1 h with h | h
      · omega
      · have := ih h
        omega
    · cases h

theorem visitsAux_congr {len : Nat} : ∀ {fu o : Nat} {b1 b2 : List Nat},
    (∀ p, o ≤ p → b1[p]? = b2[p]?) →
    visitsAux len b1 fu o = visitsAux len b2 fu o := by
  intro fu
  induction fu with
  | zero => intro o b1 b2 _; rfl
  | succ fu ih =>
    intro o b1 b2 hag
    rw [visitsAux, visitsAux]
    split
    · have h2 : le16 b1 (o + 2) = le16 b2 (o + 2) :=
        le16_congr (hag (o + 2) (by omega)) (hag (o + 3) (by omega))
      rw [h2]
      congr 1
      exact ih fun p hp => hag p (by omega)
    · rfl

theorem purifyAux_strips {len : Nat} : ∀ {fu o : Nat} {b b2 : List Nat},
    purifyAux len fu o b = some (.ok b2) →
    ∀ v ∈ visitsAux len b fu o, (le16 b v = 0x5455 ∨ le16 b v = 0x7875) →
      le16 b2 v = 0xFFFF ∧ le16 b2 (v + 2) = le16 b (v + 2) ∧
      ∀ t, t < le16 b (v + 2) → b2[v + 4 + t]? = some 255 := by
  intro fu
  induction fu with
  | zero =>
    intro o b b2 h v hv _
    rw [visitsAux] at hv
    cases hv
  | succ fu ih =>
    intro o b b2 h v hv hid
    rw [purifyAux] at h
    rw [visitsAux] at hv
    split at h
    · dsimp only at h
      rw [if_pos (by assumption)] at hv
      split at h
      next hphys =>
        split at h
        next hknown =>
          split at h
          next hpay =>
            -- stripped sub-record, buffer becomes b'
            have hlenb' :
                (setRange ((b.set o 255).set (o + 1) 255) (o + 4) (le16 b (o + 2)) 255).length
                  = b.length := by
              rw [setRange_length, List.length_set, List.length_set]
            have hbo : ∀ p, o + 4 + le16 b (o + 2) ≤ p →
                (setRange ((b.set o 255).set (o + 1) 255) (o + 4) (le16 b (o + 2)) 255)[p]?
                  = b[p]? := by
              intro p hp
              rw [setRange_getElem_out (by omega), List.getElem?_set_ne (by omega),
                List.getElem?_set_ne (by omega)]
            rcases List.mem_cons.1 hv with hv | hv
            · subst hv
              refine ⟨?_, ?_, ?_⟩
              · have e0 : b2[v]? = some 255 := by
                  rw [purifyAux_startBytes h v (by omega), setRange_getElem_out (by omega),
                    List.getElem?_set_ne (by omega), List.getElem?_set_self (by omega)]
                have e1 : b2[v + 1]? = some 255 := by
                  rw [purifyAux_startBytes h (v + 1) (by omega), setRange_getElem_out (by omega),
                    List.getElem?_set_self (by rw [List.length_set]; omega)]
                rw [le16_of_getElem e0 e1]
              · refine le16_congr ?_ ?_
                · rw [purifyAux_startBytes h (v + 2) (by omega), setRange_getElem_out (by omega),
                    List.getElem?_set_ne (by omega), List.getElem?_set_ne (by omega)]
                · rw [purifyAux_startBytes h (v + 3) (by omega), setRange_getElem_out (by omega),
                    List.getElem?_set_ne (by omega), List.getElem?_set_ne (by omega)]
              · intro t ht
                rw [purifyAux_startBytes h (v + 4 + t) (by omega)]
                rw [setRange_getElem_in (by rw [List.length_set, List.length_set]; omega)
                  (by omega)]
            · -- later sub-record: use the induction hypothesis on the stripped buffer
              have hvis :
                  visitsAux len b fu (o + 4 + le16 b (o + 2)) =
                  visitsAux len
                    (setRange ((b.set o 255).set (o + 1) 255) (o + 4) (le16 b (o + 2)) 255)
                    fu (o + 4 + le16 b (o + 2)) :=
                visitsAux_congr fun p hp => (hbo p hp).symm
              rw [hvis] at hv
              have hvge := visitsAux_ge hv
              have hagv : ∀ j, b[v + j]? =
                  (setRange ((b.set o 255).set (o + 1) 255) (o + 4) (le16 b (o + 2)) 255)[v + j]? :=
                fun j => (hbo (v + j) (by omega)).symm
              have hid2 :
                  le16 (setRange ((b.set o 255).set (o + 1) 255) (o + 4) (le16 b (o + 2)) 255) v
                    = le16 b v := (le16_congr (hagv 0) (hagv 1)).symm
              have hl2 :
                  le16 (setRange ((b.set o 255).set (o + 1) 255) (o + 4) (le16 b (o + 2)) 255)
                    (v + 2) = le16 b (v + 2) := (le16_congr (hagv 2) (hagv 3)).symm
              have := ih h v hv (by rw [hid2]; exact hid)
              rw [hl2] at this
              exact this
          · cases h
        next hknown =>
          split at h
          next hsent =>
            rcases List.mem_cons.1 hv with hv | hv
            · subst hv
              rw [hsent] at hid
              rcases hid with hid | hid <;> simp [STRIPZIP_OPTION_HEADER] at hid
            · exact ih h v hv hid
          · cases h
      · cases h
    next holt => rw [if_neg holt] at hv; cases hv

theorem purifyAux_idem {len : Nat} : ∀ {fu o : Nat} {b b2 : List Nat},
    purifyAux len fu o b = some (.ok b2) → purifyAux len fu o b2 = some (.ok b2) := by
  intro fu
  induction fu with
  | zero =>
    intro o b b2 h
    rw [purifyAux] at h ⊢
    split at h
    · exact absurd h (by simp)
    · rw [if_neg (by assumption)]
  | succ fu ih =>
    intro o b b2 h
    rw [purifyAux] at h ⊢
    split at h
    next holt =>
      dsimp only at h
      rw [if_pos holt]
      dsimp only
      split at h
      next hphys =>
        split at h
        next hknown =>
          split at h
          next hpay =>
            have hlen2 : b2.length = b.length := by
              rw [purifyAux_length h, setRange_length, List.length_set, List.length_set]
            have e0 : b2[o]? = some 255 := by
              rw [purifyAux_startBytes h o (by omega), setRange_getElem_out (by omega),
                List.getElem?_set_ne (by omega), List.getElem?_set_self (by omega)]
            have e1 : b2[o + 1]? = some 255 := by
              rw [purifyAux_startBytes h (o + 1) (by omega), setRange_getElem_out (by omega),
                List.getElem?_set_self (by rw [List.length_set]; omega)]
            have hid2 : le16 b2 o = 0xFFFF := by
              rw [le16_of_getElem e0 e1]
            have hl2 : le16 b2 (o + 2) = le16 b (o + 2) := by
              refine le16_congr ?_ ?_
              · rw [purifyAux_startBytes h (o + 2) (by omega), setRange_getElem_out (by omega),
                  List.getElem?_set_ne (by omega), List.getElem?_set_ne (by omega)]
              · rw [purifyAux_startBytes h (o + 3) (by omega), setRange_getElem_out (by omega),
                  List.getElem?_set_ne (by omega), List.getElem?_set_ne (by omega)]
            rw [if_pos (by omega), if_neg (by rw [hid2]; omega),
              if_pos (by rw [hid2]; rfl), hl2]
            exact ih h
          · cases h
        next hknown =>
          split at h
          next hsent =>
            have hpre : ∀ p, p < o + 4 + le16 b (o + 2) → b2[p]? = b[p]? := by
              intro p hp
              exact purifyAux_startBytes h p hp
            have hlen2 : b2.length = b.length := purifyAux_length h
            have hid2 : le16 b2 o = le16 b o :=
              le16_congr (hpre o (by omega)) (hpre (o + 1) (by omega))
            have hl2 : le16 b2 (o + 2) = le16 b (o + 2) :=
              le16_congr (hpre (o + 2) (by omega)) (hpre (o + 3) (by omega))
            rw [if_pos (by omega), if_neg (by rw [hid2, hsent]; omega),
              if_pos (by rw [hid2, hsent]), hl2]
            exact ih h
          · cases h
      · cases h
    next holt =>
      rw [if_neg holt]

theorem slices_eq {f g : List Nat} {q n : Nat} (hbf : q + n ≤ f.length)
    (hbg : q + n ≤ g.length) (hag : ∀ t, t < n → g[q + t]? = f[q + t]?) :
    (g.drop q).take n = (f.drop q).take n := by
  have h := readN_eq_of_agree hbg hbf hag
  rw [readN_some hbg, readN_some hbf] at h
  exact Option.some.inj h

theorem purify_ok_length {e : Nat} {b b2 : List Nat}
    (h : purify_extra_data e b = some (.ok b2)) : b2.length = b.length :=
  purifyAux_length h

theorem extraPhase_zero (st : St) : extraPhase 0 st = some (none, st) := rfl

theorem extraPhase_run {e : Nat} {st : St} {b2 : List Nat} (hf : st.faults = [])
    (he : e ≠ 0) (hb : st.pos + e ≤ st.file.length)
    (hp : purify_extra_data e ((st.file.drop st.pos).take e) = some (.ok b2)) :
    extraPhase e st =
      some (none, ⟨writeN st.file st.pos b2, st.pos + e, []⟩) := by
  have hlen2 : b2.length = e := by
    rw [purify_ok_length hp]
    simp only [List.length_take, List.length_drop]
    omega
  unfold extraPhase
  rw [if_neg he, fread_pos he hb]
  dsimp only
  rw [if_neg (by omega), hp]
  dsimp only
  rw [overwrite_field_eq (by rw [hf]) (by dsimp only; omega)]
  dsimp only
  have h1 : st.pos + e - b2.length = st.pos := by omega
  rw [h1]

theorem layout_parts {f : List Nat} {el : EL} (hlay : readEntryLayout f el.q = some el) :
    el.q + 46 ≤ f.length ∧ el.r + 30 ≤ f.length ∧
    el.n = le16 ((f.drop el.q).take 46) 28 ∧
    el.c = le16 ((f.drop el.q).take 46) 32 ∧
    el.e = le16 ((f.drop el.q).take 46) 30 ∧
    el.r = le32 ((f.drop el.q).take 46) 42 ∧
    el.ln = le16 ((f.drop el.r).take 30) 26 ∧
    el.lfe = le16 ((f.drop el.r).take 30) 28 := by
  unfold readEntryLayout at hlay
  rcases hq : readN f el.q 46 with _ | cdb <;> rw [hq] at hlay <;> dsimp only at hlay
  · cases hlay
  rcases hr : readN f (le32 cdb 42) 30 with _ | lfb <;> rw [hr] at hlay <;> dsimp only at hlay
  · cases hlay
  obtain ⟨hqb1, hqb2⟩ := readN_bounds hq
  obtain ⟨hrb1, hrb2⟩ := readN_bounds hr
  have hcdb : cdb = (f.drop el.q).take 46 := by
    have h2 := readN_some hqb2
    rw [hq] at h2
    exact Option.some.inj h2
  have hel : EL.mk el.q (le16 cdb 28) (le16 cdb 32) (le16 cdb 30) (le32 cdb 42)
      (le16 lfb 26) (le16 lfb 28) = el := Option.some.inj hlay
  have hn : el.n = le16 cdb 28 := by rw [← hel]
  have hc : el.c = le16 cdb 32 := by rw [← hel]
  have he : el.e = le16 cdb 30 := by rw [← hel]
  have hrr : el.r = le32 cdb 42 := by rw [← hel]
  have hln : el.ln = le16 lfb 26 := by rw [← hel]
  have hlfe : el.lfe = le16 lfb 28 := by rw [← hel]
  have hlfb : lfb = (f.drop el.r).take 30 := by
    have h2 := readN_some hrb2
    rw [hr] at h2
    rw [← hrr] at h2
    exact Option.some.inj h2
  refine ⟨hqb2, by rw [hrr]; exact hrb2, ?_, ?_, ?_, ?_, ?_, ?_⟩
  · rw [hn, hcdb]
  · rw [hc, hcdb]
  · rw [he, hcdb]
  · rw [hrr, hcdb]
  · rw [hln, hlfb]
  · rw [hlfe, hlfb]

theorem entryValid_parts {f : List Nat} {el : EL} (hval : entryValidB f el = true)
    (hq : el.q + 46 ≤ f.length) (hr : el.r + 30 ≤ f.length) :
    le32 ((f.drop el.q).take 46) 0 = CENDIR_HEADER_SIGNATURE ∧
    Nat.land (le16 ((f.drop el.q).take 46) 8) GP_BIT_ENC_MARKERS = 0 ∧
    Nat.land (le16 ((f.drop el.q).take 46) 8) GP_BIT_UNKNOWN_FLAG_MASK = 0 ∧
    1 ≤ el.n ∧
    le32 ((f.drop el.r).take 30) 0 = FILE_HEADER_SIGNATURE ∧
    Nat.land (le16 ((f.drop el.r).take 30) 6) GP_BIT_ENC_MARKERS = 0 ∧
    Nat.land (le16 ((f.drop el.r).take 30) 6) GP_BIT_UNKNOWN_FLAG_MASK = 0 ∧
    (el.e ≠ 0 → el.q + 46 + el.n + el.c + el.e ≤ f.length →
      ∃ b2, purify_extra_data el.e ((f.drop (el.q + 46 + el.n + el.c)).take el.e) =
        some (.ok b2)) ∧
    (el.lfe ≠ 0 → el.r + 30 + el.ln + el.lfe ≤ f.length →
      ∃ b2, purify_extra_data el.lfe ((f.drop (el.r + 30 + el.ln)).take el.lfe) =
        some (.ok b2)) := by
  unfold entryValidB at hval
  rw [readN_some hq, readN_some hr] at hval
  dsimp only at hval
  simp only [Bool.and_eq_true, decide_eq_true_eq] at hval
  obtain ⟨⟨⟨⟨⟨⟨⟨⟨h1, h2⟩, h3⟩, h4⟩, h5⟩, h6⟩, h7⟩, h8⟩, h9⟩ := hval
  refine ⟨h1, h2, h3, h4, h5, h6, h7, ?_, ?_⟩
  · intro he hbe
    rw [if_neg he, readN_some (by omega)] at h8
    dsimp only at h8
    rcases hp : purify_extra_data el.e ((f.drop (el.q + 46 + el.n + el.c)).take el.e)
        with _ | pr
    · rw [hp] at h8
      simp at h8
    · rcases pr with b2 | ⟨i, hl, bb⟩
      · exact ⟨b2, rfl⟩
      · rw [hp] at h8
        simp at h8
  · intro he hbe
    rw [if_neg he, readN_some (by omega)] at h9
    dsimp only at h9
    rcases hp : purify_extra_data el.lfe ((f.drop (el.r + 30 + el.ln)).take el.lfe)
        with _ | pr
    · rw [hp] at h9
      simp at h9
    · rcases pr with b2 | ⟨i, hl, bb⟩
      · exact ⟨b2, rfl⟩
      · rw [hp] at h9
        simp at h9

theorem processEntry_run {f g : List Nat} {el : EL}
    (hlay : readEntryLayout f el.q = some el)
    (hval : entryValidB f el = true)
    (hbq : el.q + 46 + el.n + el.c + el.e ≤ f.length)
    (hbr : el.r + 30 + el.ln + el.lfe ≤ f.length)
    (hdisj : SpansDisj (el.q, 46 + el.n + el.c + el.e) (el.r, 30 + el.ln + el.lfe))
    (hglen : g.length = f.length)
    (hagq : ∀ t, t < 46 + el.n + el.c + el.e → g[el.q + t]? = f[el.q + t]?)
    (hagr : ∀ t, t < 30 + el.ln + el.lfe → g[el.r + t]? = f[el.r + t]?) :
    processEntry ⟨g, el.q, []⟩ =
      some (none, ⟨applyEntry f g el, el.q + 46 + el.n + el.c + el.e, []⟩) := by
  obtain ⟨hqb, hrb, hn, hc, he, hrr, hln, hlfe⟩ := layout_parts hlay
  obtain ⟨hsig, henc, hunk, hn1, hlsig, hlenc, hlunk, hex, hlex⟩ :=
    entryValid_parts hval hqb hrb
  have hcdLen : ((f.drop el.q).take 46).length = 46 := by
    simp only [List.length_take, List.length_drop]
    omega
  have hlfLen : ((f.drop el.r).take 30).length = 30 := by
    simp only [List.length_take, List.length_drop]
    omega
  have hcdg : (g.drop el.q).take 46 = (f.drop el.q).take 46 :=
    slices_eq (by omega) (by omega) (fun t ht => hagq t (by omega))
  -- field reads on the zeroed record image
  have hz28 : le16 (zero4 ((f.drop el.q).take 46) 12) 28 = el.n := by
    rw [le16_congr (zero4_getElem_out (by omega)) (zero4_getElem_out (by omega)), hn]
  have hz32 : le16 (zero4 ((f.drop el.q).take 46) 12) 32 = el.c := by
    rw [le16_congr (zero4_getElem_out (by omega)) (zero4_getElem_out (by omega)), hc]
  have hz30 : le16 (zero4 ((f.drop el.q).take 46) 12) 30 = el.e := by
    rw [le16_congr (zero4_getElem_out (by omega)) (zero4_getElem_out (by omega)), he]
  have hz42 : le32 (zero4 ((f.drop el.q).take 46) 12) 42 = el.r := by
    rw [le32_congr (zero4_getElem_out (by omega)) (zero4_getElem_out (by omega))
      (zero4_getElem_out (by omega)) (zero4_getElem_out (by omega)), hrr]
  have hzlen : (zero4 ((f.drop el.q).take 46) 12).length = 46 := by
    rw [zero4_length, hcdLen]
  have hG1len : (writeN g el.q (zero4 ((f.drop el.q).take 46) 12)).length = g.length :=
    writeN_length (by rw [hzlen]; omega)
  unfold processEntry
  rw [fread_pos (by omega) (by dsimp only; omega)]
  dsimp only
  rw [hcdg]
  rw [if_neg (by simp), if_neg (by simp [hsig]), if_neg (by simp [henc]),
    if_neg (by simp [hunk])]
  rw [overwrite_field_eq rfl (by dsimp only; rw [hzlen]; omega)]
  dsimp only
  rw [hzlen]
  have hq46 : el.q + 46 - 46 = el.q := by omega
  rw [hq46, hz28]
  rw [fread_pos (by omega) (by dsimp only; rw [hG1len]; omega)]
  dsimp only
  rw [if_neg (by simp)]
  rw [hz32]
  -- comment phase: whether or not a comment is present the state ends at the
  -- same position q + 46 + n + c
  have hcomm :
      (if 0 < el.c then
        match fread el.c ⟨writeN g el.q (zero4 ((f.drop el.q).take 46) 12),
            el.q + 46 + el.n, []⟩ with
        | (rc, _comment, stc) => if rc ≠ 1 then (some (-1 : Int), stc) else (none, stc)
       else (none, ⟨writeN g el.q (zero4 ((f.drop el.q).take 46) 12),
            el.q + 46 + el.n, []⟩)) =
      (none, ⟨writeN g el.q (zero4 ((f.drop el.q).take 46) 12),
        el.q + 46 + el.n + el.c, []⟩) := by
    by_cases hc0 : 0 < el.c
    · rw [if_pos hc0, fread_pos (by omega) (by dsimp only; rw [hG1len]; omega)]
      dsimp only
      rw [if_neg (by simp)]
    · rw [if_neg hc0]
      have hcz : el.c = 0 := by omega
      rw [hcz]
      simp
  rw [hcomm]
  dsimp only
  rw [hz30]
  -- central-directory extra-field phase
  have hextra : extraPhase el.e ⟨writeN g el.q (zero4 ((f.drop el.q).take 46) 12),
      el.q + 46 + el.n + el.c, []⟩ =
      some (none, ⟨(if el.e = 0 then writeN g el.q (zero4 ((f.drop el.q).take 46) 12)
        else writeN (writeN g el.q (zero4 ((f.drop el.q).take 46) 12))
          (el.q + 46 + el.n + el.c) (purifyOut f (el.q + 46 + el.n + el.c) el.e)),
        el.q + 46 + el.n + el.c + el.e, []⟩) := by
    by_cases hee : el.e = 0
    · rw [if_pos hee, hee, extraPhase_zero]
      simp
    · rw [if_neg hee]
      obtain ⟨b2, hb2⟩ := hex hee (by omega)
      have hsl : ((writeN g el.q (zero4 ((f.drop el.q).take 46) 12)).drop
          (el.q + 46 + el.n + el.c)).take el.e = (f.drop (el.q + 46 + el.n + el.c)).take el.e := by
        refine slices_eq (by omega) (by rw [hG1len]; omega) (fun t ht => ?_)
        rw [writeN_getElem_out (by rw [hzlen]; omega) (by rw [hzlen]; omega)]
        have := hagq (46 + el.n + el.c + t) (by omega)
        have harith : el.q + (46 + el.n + el.c + t) = el.q + 46 + el.n + el.c + t := by omega
        rw [harith] at this
        exact this
      have hpo : purifyOut f (el.q + 46 + el.n + el.c) el.e = b2 := by
        unfold purifyOut
        rw [hb2]
      rw [extraPhase_run rfl hee (by dsimp only; rw [hG1len]; omega)
        (by dsimp only; rw [hsl]; exact hb2)]
      rw [hpo]
  rw [hextra]
  dsimp only
  rw [hz42]
  -- abbreviation facts for the file after the central-directory phase
  have hG2len :
      (if el.e = 0 then writeN g el.q (zero4 ((f.drop el.q).take 46) 12)
        else writeN (writeN g el.q (zero4 ((f.drop el.q).take 46) 12))
          (el.q + 46 + el.n + el.c)
          (purifyOut f (el.q + 46 + el.n + el.c) el.e)).length = g.length := by
    by_cases hee : el.e = 0
    · rw [if_pos hee]
      exact hG1len
    · rw [if_neg hee]
      obtain ⟨b2, hb2⟩ := hex hee (by omega)
      have hpo : purifyOut f (el.q + 46 + el.n + el.c) el.e = b2 := by
        unfold purifyOut
        rw [hb2]
      have hb2len : b2.length = el.e := by
        rw [purify_ok_length hb2]
        simp only [List.length_take, List.length_drop]
        omega
      rw [hpo, writeN_length (by rw [hb2len, hG1len]; omega), hG1len]
  have hG2out : ∀ p, (p < el.q ∨ el.q + 46 + el.n + el.c + el.e ≤ p) →
      (if el.e = 0 then writeN g el.q (zero4 ((f.drop el.q).take 46) 12)
        else writeN (writeN g el.q (zero4 ((f.drop el.q).take 46) 12))
          (el.q + 46 + el.n + el.c)
          (purifyOut f (el.q + 46 + el.n + el.c) el.e))[p]? = g[p]? := by
    intro p hp
    by_cases hee : el.e = 0
    · rw [if_pos hee, writeN_getElem_out (by rw [hzlen]; omega) (by rw [hzlen]; omega)]
    · rw [if_neg hee]
      obtain ⟨b2, hb2⟩ := hex hee (by omega)
      have hpo : purifyOut f (el.q + 46 + el.n + el.c) el.e = b2 := by
        unfold purifyOut
        rw [hb2]
      have hb2len : b2.length = el.e := by
        rw [purify_ok_length hb2]
        simp only [List.length_take, List.length_drop]
        omega
      rw [hpo, writeN_getElem_out (by rw [hb2len, hG1len]; omega) (by rw [hb2len]; omega),
        writeN_getElem_out (by rw [hzlen]; omega) (by rw [hzlen]; omega)]
  -- the local-header slice the walker reads equals the original one
  have hlfg : ((if el.e = 0 then writeN g el.q (zero4 ((f.drop el.q).take 46) 12)
        else writeN (writeN g el.q (zero4 ((f.drop el.q).take 46) 12))
          (el.q + 46 + el.n + el.c)
          (purifyOut f (el.q + 46 + el.n + el.c) el.e)).drop el.r).take 30 =
      (f.drop el.r).take 30 := by
    refine slices_eq (by omega) (by rw [hG2len]; omega) (fun t ht => ?_)
    rw [hG2out (el.r + t) (by rcases hdisj with hd | hd <;> dsimp only at hd <;> omega)]
    exact hagr t (by omega)
  rw [fseek_set_eq]
  dsimp only
  rw [fread_pos (by omega) (by dsimp only; rw [hG2len]; omega)]
  dsimp only
  rw [hlfg]
  rw [if_neg (by simp), if_neg (by simp [hlsig]), if_neg (by simp [hlenc]),
    if_neg (by simp [hlunk])]
  have hzllen : (zero4 ((f.drop el.r).take 30) 10).length = 30 := by
    rw [zero4_length, hlfLen]
  rw [overwrite_field_eq rfl (by dsimp only; rw [hzllen]; omega)]
  dsimp only
  rw [hzllen]
  have hr30 : el.r + 30 - 30 = el.r := by omega
  rw [hr30]
  have hzl26 : le16 (zero4 ((f.drop el.r).take 30) 10) 26 = el.ln := by
    rw [le16_congr (zero4_getElem_out (by omega)) (zero4_getElem_out (by omega)), hln]
  have hzl28 : le16 (zero4 ((f.drop el.r).take 30) 10) 28 = el.lfe := by
    rw [le16_congr (zero4_getElem_out (by omega)) (zero4_getElem_out (by omega)), hlfe]
  rw [hzl26, hzl28]
  rw [fseek_cur_eq]
  dsimp only
  -- facts about the file after the local-header record rewrite
  have hG3len :
      (writeN (if el.e = 0 then writeN g el.q (zero4 ((f.drop el.q).take 46) 12)
        else writeN (writeN g el.q (zero4 ((f.drop el.q).take 46) 12))
          (el.q + 46 + el.n + el.c)
          (purifyOut f (el.q + 46 + el.n + el.c) el.e)) el.r
        (zero4 ((f.drop el.r).take 30) 10)).length = g.length := by
    rw [writeN_length (by rw [hzllen, hG2len]; omega), hG2len]
  -- local extra-field phase
  have hextra2 : extraPhase el.lfe
      ⟨writeN (if el.e = 0 then writeN g el.q (zero4 ((f.drop el.q).take 46) 12)
        else writeN (writeN g el.q (zero4 ((f.drop el.q).take 46) 12))
          (el.q + 46 + el.n + el.c)
          (purifyOut f (el.q + 46 + el.n + el.c) el.e)) el.r
        (zero4 ((f.drop el.r).take 30) 10),
        el.r + 30 + el.ln, []⟩ =
      some (none,
        ⟨(if el.lfe = 0 then
            writeN (if el.e = 0 then writeN g el.q (zero4 ((f.drop el.q).take 46) 12)
              else writeN (writeN g el.q (zero4 ((f.drop el.q).take 46) 12))
                (el.q + 46 + el.n + el.c)
                (purifyOut f (el.q + 46 + el.n + el.c) el.e)) el.r
              (zero4 ((f.drop el.r).take 30) 10)
          else
            writeN (writeN (if el.e = 0 then writeN g el.q (zero4 ((f.drop el.q).take 46) 12)
              else writeN (writeN g el.q (zero4 ((f.drop el.q).take 46) 12))
                (el.q + 46 + el.n + el.c)
                (purifyOut f (el.q + 46 + el.n + el.c) el.e)) el.r
              (zero4 ((f.drop el.r).take 30) 10))
              (el.r + 30 + el.ln) (purifyOut f (el.r + 30 + el.ln) el.lfe)),
          el.r + 30 + el.ln + el.lfe, []⟩) := by
    by_cases hle : el.lfe = 0
    · rw [if_pos hle, hle, extraPhase_zero]
      simp
    · rw [if_neg hle]
      obtain ⟨b2, hb2⟩ := hlex hle (by omega)
      have hsl2 : ((writeN (if el.e = 0 then writeN g el.q (zero4 ((f.drop el.q).take 46) 12)
          else writeN (writeN g el.q (zero4 ((f.drop el.q).take 46) 12))
            (el.q + 46 + el.n + el.c)
            (purifyOut f (el.q + 46 + el.n + el.c) el.e)) el.r
          (zero4 ((f.drop el.r).take 30) 10)).drop (el.r + 30 + el.ln)).take el.lfe =
          (f.drop (el.r + 30 + el.ln)).take el.lfe := by
        refine slices_eq (by omega) (by rw [hG3len]; omega) (fun t ht => ?_)
        rw [writeN_getElem_out (by rw [hzllen, hG2len]; omega) (by rw [hzllen]; omega)]
        rw [hG2out (el.r + 30 + el.ln + t)
          (by rcases hdisj with hd | hd <;> dsimp only at hd <;> omega)]
        have := hagr (30 + el.ln + t) (by omega)
        have harith : el.r + (30 + el.ln + t) = el.r + 30 + el.ln + t := by omega
        rw [harith] at this
        exact this
      have hpo2 : purifyOut f (el.r + 30 + el.ln) el.lfe = b2 := by
        unfold purifyOut
        rw [hb2]
      rw [extraPhase_run rfl hle (by dsimp only; rw [hG3len]; omega)
        (by dsimp only; rw [hsl2]; exact hb2)]
      rw [hpo2]
  rw [hextra2]
  dsimp only
  rw [fseek_set_eq]
  dsimp only
  unfold applyEntry
  dsimp only

theorem purifyOut_length {f : List Nat} {x e : Nat} {b2 : List Nat}
    (hb2 : purify_extra_data e ((f.drop x).take e) = some (.ok b2)) (hbound : x + e ≤ f.length) :
    (purifyOut f x e).length = e := by
  unfold purifyOut
  rw [hb2]
  rw [purify_ok_length hb2]
  simp only [List.length_take, List.length_drop]
  omega

theorem applyEntry_facts {f g : List Nat} {el : EL}
    (hlay : readEntryLayout f el.q = some el)
    (hval : entryValidB f el = true)
    (hbq : el.q + 46 + el.n + el.c + el.e ≤ f.length)
    (hbr : el.r + 30 + el.ln + el.lfe ≤ f.length)
    (hdisj : SpansDisj (el.q, 46 + el.n + el.c + el.e) (el.r, 30 + el.ln + el.lfe))
    (hglen : g.length = f.length) :
    (applyEntry f g el).length = g.length ∧
    (∀ p, ¬ InSpan (el.q, 46 + el.n + el.c + el.e) p →
      ¬ InSpan (el.r, 30 + el.ln + el.lfe) p → (applyEntry f g el)[p]? = g[p]?) ∧
    (∀ t, t < 46 → t < 12 ∨ 16 ≤ t → (applyEntry f g el)[el.q + t]? = f[el.q + t]?) ∧
    (∀ t, 12 ≤ t → t < 16 → (applyEntry f g el)[el.q + t]? = some 0) ∧
    (∀ t, t < 30 → t < 10 ∨ 14 ≤ t → (applyEntry f g el)[el.r + t]? = f[el.r + t]?) ∧
    (∀ t, 10 ≤ t → t < 14 → (applyEntry f g el)[el.r + t]? = some 0) ∧
    (∀ t, t < el.n + el.c → (applyEntry f g el)[el.q + 46 + t]? = g[el.q + 46 + t]?) ∧
    (el.e ≠ 0 → ∀ t, t < el.e → (applyEntry f g el)[el.q + 46 + el.n + el.c + t]? =
      (purifyOut f (el.q + 46 + el.n + el.c) el.e)[t]?) ∧
    (el.lfe ≠ 0 → ∀ t, t < el.lfe → (applyEntry f g el)[el.r + 30 + el.ln + t]? =
      (purifyOut f (el.r + 30 + el.ln) el.lfe)[t]?) := by
  obtain ⟨hqb, hrb, hn, hc, he, hrr, hln, hlfe⟩ := layout_parts hlay
  obtain ⟨hsig, henc, hunk, hn1, hlsig, hlenc, hlunk, hex, hlex⟩ :=
    entryValid_parts hval hqb hrb
  have hcdLen : ((f.drop el.q).take 46).length = 46 := by
    simp only [List.length_take, List.length_drop]
    omega
  have hlfLen : ((f.drop el.r).take 30).length = 30 := by
    simp only [List.length_take, List.length_drop]
    omega
  have hzlen : (zero4 ((f.drop el.q).take 46) 12).length = 46 := by
    rw [zero4_length, hcdLen]
  have hzllen : (zero4 ((f.drop el.r).take 30) 10).length = 30 := by
    rw [zero4_length, hlfLen]
  have hpoe : el.e ≠ 0 → (purifyOut f (el.q + 46 + el.n + el.c) el.e).length = el.e := by
    intro hee
    obtain ⟨b2, hb2⟩ := hex hee (by omega)
    exact purifyOut_length hb2 (by omega)
  have hpol : el.lfe ≠ 0 → (purifyOut f (el.r + 30 + el.ln) el.lfe).length = el.lfe := by
    intro hle
    obtain ⟨b2, hb2⟩ := hlex hle (by omega)
    exact purifyOut_length hb2 (by omega)
  -- layer 1: the central-directory record rewrite
  have hG1len : (writeN g el.q (zero4 ((f.drop el.q).take 46) 12)).length = g.length :=
    writeN_length (by rw [hzlen]; omega)
  have hG1out : ∀ p, p < el.q ∨ el.q + 46 ≤ p →
      (writeN g el.q (zero4 ((f.drop el.q).take 46) 12))[p]? = g[p]? := by
    intro p hp
    exact writeN_getElem_out (by rw [hzlen]; omega) (by rw [hzlen]; omega)
  have hG1rec : ∀ t, t < 46 →
      (writeN g el.q (zero4 ((f.drop el.q).take 46) 12))[el.q + t]? =
        (zero4 ((f.drop el.q).take 46) 12)[t]? := by
    intro t ht
    exact writeN_getElem_in (by rw [hzlen]; omega) (by rw [hzlen]; omega)
  -- layer 2: the central-directory extra-field rewrite (absent when e = 0)
  have hG2len :
      (if el.e = 0 then writeN g el.q (zero4 ((f.drop el.q).take 46) 12)
        else writeN (writeN g el.q (zero4 ((f.drop el.q).take 46) 12))
          (el.q + 46 + el.n + el.c)
          (purifyOut f (el.q + 46 + el.n + el.c) el.e)).length = g.length := by
    by_cases hee : el.e = 0
    · rw [if_pos hee]
      exact hG1len
    · rw [if_neg hee, writeN_length (by rw [hpoe hee, hG1len]; omega), hG1len]
  have hG2out : ∀ p, p < el.q + 46 + el.n + el.c ∨ el.q + 46 + el.n + el.c + el.e ≤ p →
      (if el.e = 0 then writeN g el.q (zero4 ((f.drop el.q).take 46) 12)
        else writeN (writeN g el.q (zero4 ((f.drop el.q).take 46) 12))
          (el.q + 46 + el.n + el.c)
          (purifyOut f (el.q + 46 + el.n + el.c) el.e))[p]? =
      (writeN g el.q (zero4 ((f.drop el.q).take 46) 12))[p]? := by
    intro p hp
    by_cases hee : el.e = 0
    · rw [if_pos hee]
    · rw [if_neg hee,
        writeN_getElem_out (by rw [hpoe hee, hG1len]; omega) (by rw [hpoe hee]; omega)]
  -- layer 3: the local-header record rewrite
  have hG3len :
      (writeN (if el.e = 0 then writeN g el.q (zero4 ((f.drop el.q).take 46) 12)
        else writeN (writeN g el.q (zero4 ((f.drop el.q).take 46) 12))
          (el.q + 46 + el.n + el.c)
          (purifyOut f (el.q + 46 + el.n + el.c) el.e)) el.r
        (zero4 ((f.drop el.r).take 30) 10)).length = g.length := by
    rw [writeN_length (by rw [hzllen, hG2len]; omega), hG2len]
  have hG3out : ∀ p, p < el.r ∨ el.r + 30 ≤ p →
      (writeN (if el.e = 0 then writeN g el.q (zero4 ((f.drop el.q).take 46) 12)
        else writeN (writeN g el.q (zero4 ((f.drop el.q).take 46) 12))
          (el.q + 46 + el.n + el.c)
          (purifyOut f (el.q + 46 + el.n + el.c) el.e)) el.r
        (zero4 ((f.drop el.r).take 30) 10))[p]? =
      (if el.e = 0 then writeN g el.q (zero4 ((f.drop el.q).take 46) 12)
        else writeN (writeN g el.q (zero4 ((f.drop el.q).take 46) 12))
          (el.q + 46 + el.n + el.c)
          (purifyOut f (el.q + 46 + el.n + el.c) el.e))[p]? := by
    intro p hp
    exact writeN_getElem_out (by rw [hzllen, hG2len]; omega) (by rw [hzllen]; omega)
  have hG3rec : ∀ t, t < 30 →
      (writeN (if el.e = 0 then writeN g el.q (zero4 ((f.drop el.q).take 46) 12)
        else writeN (writeN g el.q (zero4 ((f.drop el.q).take 46) 12))
          (el.q + 46 + el.n + el.c)
          (purifyOut f (el.q + 46 + el.n + el.c) el.e)) el.r
        (zero4 ((f.drop el.r).take 30) 10))[el.r + t]? =
      (zero4 ((f.drop el.r).take 30) 10)[t]? := by
    intro t ht
    exact writeN_getElem_in (by rw [hzllen, hG2len]; omega) (by rw [hzllen]; omega)
  -- layer 4: the local extra-field rewrite (absent when lfe = 0)
  have hA4len : (applyEntry f g el).length = g.length := by
    unfold applyEntry
    dsimp only
    by_cases hle : el.lfe = 0
    · rw [if_pos hle]
      exact hG3len
    · rw [if_neg hle, writeN_length (by rw [hpol hle, hG3len]; omega)]
      exact hG3len
  have hG4out : ∀ p, p < el.r + 30 + el.ln ∨ el.r + 30 + el.ln + el.lfe ≤ p →
      (applyEntry f g el)[p]? =
      (writeN (if el.e = 0 then writeN g el.q (zero4 ((f.drop el.q).take 46) 12)
        else writeN (writeN g el.q (zero4 ((f.drop el.q).take 46) 12))
          (el.q + 46 + el.n + el.c)
          (purifyOut f (el.q + 46 + el.n + el.c) el.e)) el.r
        (zero4 ((f.drop el.r).take 30) 10))[p]? := by
    intro p hp
    unfold applyEntry
    dsimp only
    by_cases hle : el.lfe = 0
    · rw [if_pos hle]
    · rw [if_neg hle,
        writeN_getElem_out (by rw [hpol hle, hG3len]; omega) (by rw [hpol hle]; omega)]
  refine ⟨hA4len, ?_, ?_, ?_, ?_, ?_, ?_, ?_, ?_⟩
  · intro p hp1 hp2
    unfold InSpan at hp1 hp2
    dsimp only at hp1 hp2
    rw [hG4out p (by omega), hG3out p (by omega), hG2out p (by omega), hG1out p (by omega)]
  · intro t ht hside
    rw [hG4out (el.q + t) (by rcases hdisj with hd | hd <;> dsimp only at hd <;> omega),
      hG3out (el.q + t) (by rcases hdisj with hd | hd <;> dsimp only at hd <;> omega),
      hG2out (el.q + t) (by omega), hG1rec t ht,
      zero4_getElem_out (by omega), List.getElem?_take, if_pos ht, List.getElem?_drop]
  · intro t ht1 ht2
    rw [hG4out (el.q + t) (by rcases hdisj with hd | hd <;> dsimp only at hd <;> omega),
      hG3out (el.q + t) (by rcases hdisj with hd | hd <;> dsimp only at hd <;> omega),
      hG2out (el.q + t) (by omega), hG1rec t (by omega),
      zero4_getElem_in (by rw [hcdLen]; omega) (by omega)]
  · intro t ht hside
    rw [hG4out (el.r + t) (by omega), hG3rec t ht,
      zero4_getElem_out (by omega), List.getElem?_take, if_pos ht, List.getElem?_drop]
  · intro t ht1 ht2
    rw [hG4out (el.r + t) (by omega), hG3rec t (by omega),
      zero4_getElem_in (by rw [hlfLen]; omega) (by omega)]
  · intro t ht
    rw [hG4out (el.q + 46 + t) (by rcases hdisj with hd | hd <;> dsimp only at hd <;> omega),
      hG3out (el.q + 46 + t) (by rcases hdisj with hd | hd <;> dsimp only at hd <;> omega),
      hG2out (el.q + 46 + t) (by omega)]
    have harith : el.q + 46 + t = el.q + (46 + t) := by omega
    rw [harith, hG1out (el.q + (46 + t)) (by omega)]
  · intro hee t ht
    unfold applyEntry
    dsimp only
    by_cases hle : el.lfe = 0
    · rw [if_pos hle,
        writeN_getElem_out (by rw [hzllen, hG2len]; omega)
          (by rw [hzllen]; rcases hdisj with hd | hd <;> dsimp only at hd <;> omega),
        if_neg hee,
        writeN_getElem_in (by rw [hpoe hee, hG1len]; omega) (by rw [hpoe hee]; omega)]
    · rw [if_neg hle,
        writeN_getElem_out (by rw [hpol hle, hG3len]; omega)
          (by rw [hpol hle]; rcases hdisj with hd | hd <;> dsimp only at hd <;> omega),
        writeN_getElem_out (by rw [hzllen, hG2len]; omega)
          (by rw [hzllen]; rcases hdisj with hd | hd <;> dsimp only at hd <;> omega),
        if_neg hee,
        writeN_getElem_in (by rw [hpoe hee, hG1len]; omega) (by rw [hpoe hee]; omega)]
  · intro hle t ht
    unfold applyEntry
    dsimp only
    rw [if_neg hle,
      writeN_getElem_in (by rw [hpol hle, hG3len]; omega) (by rw [hpol hle]; omega)]

theorem readEntryLayout_q {f : List Nat} {q : Nat} {el : EL}
    (h : readEntryLayout f q = some el) : el.q = q := by
  unfold readEntryLayout at h
  rcases h1 : readN f q 46 with _ | cdb <;> rw [h1] at h <;> dsimp only at h
  · cases h
  rcases h2 : readN f (le32 cdb 42) 30 with _ | lfb <;> rw [h2] at h <;> dsimp only at h
  · cases h
  have := Option.some.inj h
  rw [← this]

theorem layoutsAux_cons {f : List Nat} {k q : Nat} {L : List EL}
    (h : layoutsAux f (k + 1) q = some L) :
    ∃ el rest, readEntryLayout f q = some el ∧
      layoutsAux f k (q + 46 + el.n + el.c + el.e) = some rest ∧ L = el :: rest := by
  rw [layoutsAux] at h
  rcases h1 : readEntryLayout f q with _ | el <;> rw [h1] at h <;> dsimp only at h
  · cases h
  rcases h2 : layoutsAux f k (q + 46 + el.n + el.c + el.e) with _ | rest
  · rw [h2] at h
    simp at h
  · rw [h2] at h
    dsimp only [Option.map] at h
    exact ⟨el, rest, rfl, h2, (Option.some.inj h).symm⟩

theorem allSpans_cons (el : EL) (rest : List EL) :
    allSpans (el :: rest) =
      (el.q, 46 + el.n + el.c + el.e) :: (el.r, 30 + el.ln + el.lfe) :: allSpans rest := rfl

theorem cdLoop_sim {f : List Nat} : ∀ (els : List EL) (g : List Nat) (q : Nat),
    layoutsAux f els.length q = some els →
    (∀ el ∈ els, entryValidB f el = true) →
    (∀ s ∈ allSpans els, s.1 + s.2 ≤ f.length) →
    List.Pairwise SpansDisj (allSpans els) →
    g.length = f.length →
    (∀ el ∈ els,
      (∀ t, t < 46 + el.n + el.c + el.e → g[el.q + t]? = f[el.q + t]?) ∧
      (∀ t, t < 30 + el.ln + el.lfe → g[el.r + t]? = f[el.r + t]?)) →
    ∃ pend, cdLoop els.length ⟨g, q, []⟩ = some (0, ⟨applyEntries f els g, pend, []⟩) := by
  intro els
  induction els with
  | nil =>
    intro g q _ _ _ _ _ _
    exact ⟨q, rfl⟩
  | cons el rest ih =>
    intro g q hlay hvals hbounds hpw hglen hag
    obtain ⟨el2, rest2, hl1, hl2, hL⟩ := layoutsAux_cons hlay
    injection hL with he1 he2
    subst he1
    subst he2
    have helq : el.q = q := readEntryLayout_q hl1
    rw [allSpans_cons] at hbounds hpw
    obtain ⟨hpw1, hpw⟩ := List.pairwise_cons.1 hpw
    obtain ⟨hpw2, hpwrest⟩ := List.pairwise_cons.1 hpw
    have hdisj : SpansDisj (el.q, 46 + el.n + el.c + el.e) (el.r, 30 + el.ln + el.lfe) :=
      hpw1 _ (List.mem_cons_self _ _)
    have hbq : el.q + (46 + el.n + el.c + el.e) ≤ f.length :=
      hbounds _ (List.mem_cons_self _ _)
    have hbr : el.r + (30 + el.ln + el.lfe) ≤ f.length :=
      hbounds _ (List.mem_cons.2 (Or.inr (List.mem_cons_self _ _)))
    have hrun := @processEntry_run f g el
      (by rw [helq]; exact hl1) (hvals el (List.mem_cons_self _ _))
      (by omega) (by omega) hdisj hglen
      (hag el (List.mem_cons_self _ _)).1 (hag el (List.mem_cons_self _ _)).2
    obtain ⟨hA1, hA2, hA3, hA4, hA5, hA6, hA7, hA8, hA9⟩ :=
      applyEntry_facts (by rw [helq]; exact hl1) (hvals el (List.mem_cons_self _ _))
        (by omega) (by omega) hdisj hglen
    have hstep : cdLoop (rest.length + 1) ⟨g, q, []⟩ =
        cdLoop rest.length ⟨applyEntry f g el, el.q + 46 + el.n + el.c + el.e, []⟩ := by
      rw [cdLoop]
      rw [← helq, hrun]
    have hag2 : ∀ el2 ∈ rest,
        (∀ t, t < 46 + el2.n + el2.c + el2.e →
          (applyEntry f g el)[el2.q + t]? = f[el2.q + t]?) ∧
        (∀ t, t < 30 + el2.ln + el2.lfe →
          (applyEntry f g el)[el2.r + t]? = f[el2.r + t]?) := by
      intro el2 hmem
      have hd1 : SpansDisj (el.q, 46 + el.n + el.c + el.e) (el2.q, 46 + el2.n + el2.c + el2.e) := by
        apply hpw1
        exact List.mem_cons.2 (Or.inr
          (by rw [allSpans]; exact List.mem_flatMap.2 ⟨el2, hmem, by simp [spansOf]⟩))
      have hd2 : SpansDisj (el.q, 46 + el.n + el.c + el.e) (el2.r, 30 + el2.ln + el2.lfe) := by
        apply hpw1
        exact List.mem_cons.2 (Or.inr
          (by rw [allSpans]; exact List.mem_flatMap.2 ⟨el2, hmem, by simp [spansOf]⟩))
      have hd3 : SpansDisj (el.r, 30 + el.ln + el.lfe) (el2.q, 46 + el2.n + el2.c + el2.e) := by
        apply hpw2
        exact List.mem_flatMap.2 ⟨el2, hmem, by simp [spansOf]⟩
      have hd4 : SpansDisj (el.r, 30 + el.ln + el.lfe) (el2.r, 30 + el2.ln + el2.lfe) := by
        apply hpw2
        exact List.mem_flatMap.2 ⟨el2, hmem, by simp [spansOf]⟩
      unfold SpansDisj at hd1 hd2 hd3 hd4
      dsimp only at hd1 hd2 hd3 hd4
      constructor
      · intro t ht
        rw [hA2 (el2.q + t) (by unfold InSpan; dsimp only; omega)
            (by unfold InSpan; dsimp only; omega)]
        exact (hag el2 (List.mem_cons.2 (Or.inr hmem))).1 t ht
      · intro t ht
        rw [hA2 (el2.r + t) (by unfold InSpan; dsimp only; omega)
            (by unfold InSpan; dsimp only; omega)]
        exact (hag el2 (List.mem_cons.2 (Or.inr hmem))).2 t ht
    have hlen2 : (applyEntry f g el).length = f.length := by
      rw [hA1, hglen]
    obtain ⟨pend, hrest⟩ := ih (applyEntry f g el) (el.q + 46 + el.n + el.c + el.e)
      (by rw [helq]; exact hl2) (fun e2 he2 => hvals e2 (List.mem_cons.2 (Or.inr he2)))
      (fun s hs => hbounds s (List.mem_cons.2 (Or.inr (List.mem_cons.2 (Or.inr hs)))))
      hpwrest hlen2 hag2
    refine ⟨pend, ?_⟩
    rw [List.length_cons, hstep, hrest]
    rfl

theorem layoutsAux_length {f : List Nat} : ∀ {k q : Nat} {L : List EL},
    layoutsAux f k q = some L → L.length = k := by
  intro k
  induction k with
  | zero =>
    intro q L h
    rw [layoutsAux] at h
    rw [← Option.some.inj h]
    rfl
  | succ k ih =>
    intro q L h
    obtain ⟨el, rest, h1, h2, hL⟩ := layoutsAux_cons h
    rw [hL, List.length_cons, ih h2]

theorem layoutsAux_mem {f : List Nat} : ∀ {k q : Nat} {L : List EL},
    layoutsAux f k q = some L → ∀ el ∈ L, readEntryLayout f el.q = some el := by
  intro k
  induction k with
  | zero =>
    intro q L h el hmem
    rw [layoutsAux] at h
    rw [← Option.some.inj h] at hmem
    cases hmem
  | succ k ih =>
    intro q L h el hmem
    obtain ⟨el1, rest, h1, h2, hL⟩ := layoutsAux_cons h
    rw [hL] at hmem
    rcases List.mem_cons.1 hmem with hmem | hmem
    · subst hmem
      rw [readEntryLayout_q h1]
      exact h1
    · exact ih h2 el hmem

theorem staticOK_parts {f : List Nat} (h : staticOK f = true) :
    ∃ eb els, readN f (f.length - 22) 22 = some eb ∧
      le32 eb 0 = EO_CENDIR_HEADER_SIGNATURE ∧ le16 eb 4 = 0 ∧
      le32 eb 12 ≠ 0xFFFFFFFF ∧
      layoutsAux f (le16 eb 10) (le32 eb 16) = some els ∧
      (∀ el ∈ els, entryValidB f el = true) ∧
      List.Pairwise SpansDisj (allSpans els) ∧
      (∀ s ∈ allSpans els, s.1 + s.2 + 22 ≤ f.length) := by
  unfold staticOK at h
  rcases h1 : readN f (f.length - 22) 22 with _ | eb <;> rw [h1] at h <;> dsimp only at h
  · cases h
  rcases h2 : layoutsAux f (le16 eb 10) (le32 eb 16) with _ | els <;> rw [h2] at h
  · simp only [Bool.and_eq_true] at h
    exact absurd h.2 (by simp)
  simp only [Bool.and_eq_true, decide_eq_true_eq, List.all_eq_true] at h
  obtain ⟨⟨⟨hsig, hdisk⟩, hz64⟩, ⟨hvals, hpw⟩, hbounds⟩ := h
  exact ⟨eb, els, rfl, hsig, hdisk, hz64, h2, hvals, hpw, hbounds⟩

theorem mainFn_start {f : List Nat} {faults : List Bool} {eb : List Nat}
    (h1 : readN f (f.length - 22) 22 = some eb)
    (hsig : le32 eb 0 = EO_CENDIR_HEADER_SIGNATURE)
    (hdisk : le16 eb 4 = 0) (hz64 : le32 eb 12 ≠ 0xFFFFFFFF) :
    mainFn f faults = cdLoop (le16 eb 10) ⟨f, le32 eb 16, faults⟩ := by
  obtain ⟨hebl, hbound⟩ := readN_bounds h1
  have hflen : 22 ≤ f.length := by omega
  have heb : (f.drop (f.length - 22)).take 22 = eb := by
    have h2 := @readN_some f (f.length - 22) 22 (by omega)
    rw [h1] at h2
    exact (Option.some.inj h2).symm
  unfold mainFn fseek
  dsimp only
  rw [if_neg (show ¬ ((f.length : Int) + (-22) < 0) by omega)]
  dsimp only
  rw [if_neg (show ¬ ((0 : Int) < 0) by omega)]
  have htn : ((f.length : Int) + (-22)).toNat = f.length - 22 := by omega
  rw [htn]
  rw [fread_pos (by omega) (by dsimp only; omega)]
  dsimp only
  rw [heb]
  rw [if_neg (by simp), if_neg (by simp [hsig]), if_neg (by simp [hdisk]),
    if_neg (by simp [hz64])]
  have ht2 : ¬ ((le32 eb 16 : Int) < 0) := by omega
  rw [if_neg ht2]
  have ht3 : ((le32 eb 16 : Int)).toNat = le32 eb 16 := by omega
  rw [ht3]

theorem applyEntries_facts {f : List Nat} : ∀ (els : List EL) (g : List Nat),
    (∀ el ∈ els, readEntryLayout f el.q = some el) →
    (∀ el ∈ els, entryValidB f el = true) →
    (∀ s ∈ allSpans els, s.1 + s.2 ≤ f.length) →
    List.Pairwise SpansDisj (allSpans els) →
    g.length = f.length →
    (applyEntries f els g).length = g.length ∧
    (∀ p, (∀ el ∈ els, ¬ InSpan (el.q, 46 + el.n + el.c + el.e) p ∧
        ¬ InSpan (el.r, 30 + el.ln + el.lfe) p) →
      (applyEntries f els g)[p]? = g[p]?) ∧
    (∀ el ∈ els,
      (∀ t, t < 46 → t < 12 ∨ 16 ≤ t → (applyEntries f els g)[el.q + t]? = f[el.q + t]?) ∧
      (∀ t, 12 ≤ t → t < 16 → (applyEntries f els g)[el.q + t]? = some 0) ∧
      (∀ t, t < 30 → t < 10 ∨ 14 ≤ t → (applyEntries f els g)[el.r + t]? = f[el.r + t]?) ∧
      (∀ t, 10 ≤ t → t < 14 → (applyEntries f els g)[el.r + t]? = some 0) ∧
      (∀ t, t < el.n + el.c → (applyEntries f els g)[el.q + 46 + t]? = g[el.q + 46 + t]?) ∧
      (el.e ≠ 0 → ∀ t, t < el.e → (applyEntries f els g)[el.q + 46 + el.n + el.c + t]? =
        (purifyOut f (el.q + 46 + el.n + el.c) el.e)[t]?) ∧
      (el.lfe ≠ 0 → ∀ t, t < el.lfe → (applyEntries f els g)[el.r + 30 + el.ln + t]? =
        (purifyOut f (el.r + 30 + el.ln) el.lfe)[t]?)) := by
  intro els
  induction els with
  | nil =>
    intro g _ _ _ _ hglen
    refine ⟨rfl, fun p _ => rfl, fun el hmem => absurd hmem (by simp)⟩
  | cons el rest ih =>
    intro g hlays hvals hbounds hpw hglen
    rw [allSpans_cons] at hbounds hpw
    obtain ⟨hpw1, hpw⟩ := List.pairwise_cons.1 hpw
    obtain ⟨hpw2, hpwrest⟩ := List.pairwise_cons.1 hpw
    have hdisj : SpansDisj (el.q, 46 + el.n + el.c + el.e) (el.r, 30 + el.ln + el.lfe) :=
      hpw1 _ (List.mem_cons_self _ _)
    have hbq : el.q + (46 + el.n + el.c + el.e) ≤ f.length :=
      hbounds _ (List.mem_cons_self _ _)
    have hbr : el.r + (30 + el.ln + el.lfe) ≤ f.length :=
      hbounds _ (List.mem_cons.2 (Or.inr (List.mem_cons_self _ _)))
    obtain ⟨hA1, hA2, hA3, hA4, hA5, hA6, hA7, hA8, hA9⟩ :=
      applyEntry_facts (hlays el (List.mem_cons_self _ _)) (hvals el (List.mem_cons_self _ _))
        (by omega) (by omega) hdisj hglen
    have hlen2 : (applyEntry f g el).length = f.length := by rw [hA1, hglen]
    obtain ⟨hI1, hI2, hI3⟩ := ih (applyEntry f g el)
      (fun e2 he2 => hlays e2 (List.mem_cons.2 (Or.inr he2)))
      (fun e2 he2 => hvals e2 (List.mem_cons.2 (Or.inr he2)))
      (fun s hs => hbounds s (List.mem_cons.2 (Or.inr (List.mem_cons.2 (Or.inr hs)))))
      hpwrest hlen2
    have hdr : ∀ el2 ∈ rest,
        SpansDisj (el.q, 46 + el.n + el.c + el.e) (el2.q, 46 + el2.n + el2.c + el2.e) ∧
        SpansDisj (el.q, 46 + el.n + el.c + el.e) (el2.r, 30 + el2.ln + el2.lfe) ∧
        SpansDisj (el.r, 30 + el.ln + el.lfe) (el2.q, 46 + el2.n + el2.c + el2.e) ∧
        SpansDisj (el.r, 30 + el.ln + el.lfe) (el2.r, 30 + el2.ln + el2.lfe) := by
      intro el2 hmem
      refine ⟨?_, ?_, ?_, ?_⟩
      · apply hpw1
        exact List.mem_cons.2 (Or.inr
          (by rw [allSpans]; exact List.mem_flatMap.2 ⟨el2, hmem, by simp [spansOf]⟩))
      · apply hpw1
        exact List.mem_cons.2 (Or.inr
          (by rw [allSpans]; exact List.mem_flatMap.2 ⟨el2, hmem, by simp [spansOf]⟩))
      · apply hpw2
        exact List.mem_flatMap.2 ⟨el2, hmem, by simp [spansOf]⟩
      · apply hpw2
        exact List.mem_flatMap.2 ⟨el2, hmem, by simp [spansOf]⟩
    -- positions inside the head entry's spans survive the remaining entries
    have houtq : ∀ t, t < 46 + el.n + el.c + el.e →
        (applyEntries f rest (applyEntry f g el))[el.q + t]? =
          (applyEntry f g el)[el.q + t]? := by
      intro t ht
      refine hI2 (el.q + t) (fun el2 hmem => ?_)
      obtain ⟨hd1, hd2, hd3, hd4⟩ := hdr el2 hmem
      unfold SpansDisj at hd1 hd2 hd3 hd4
      dsimp only at hd1 hd2 hd3 hd4
      unfold InSpan
      dsimp only
      omega
    have houtr : ∀ t, t < 30 + el.ln + el.lfe →
        (applyEntries f rest (applyEntry f g el))[el.r + t]? =
          (applyEntry f g el)[el.r + t]? := by
      intro t ht
      refine hI2 (el.r + t) (fun el2 hmem => ?_)
      obtain ⟨hd1, hd2, hd3, hd4⟩ := hdr el2 hmem
      unfold SpansDisj at hd1 hd2 hd3 hd4
      dsimp only at hd1 hd2 hd3 hd4
      unfold InSpan
      dsimp only
      omega
    have happ : applyEntries f (el :: rest) g = applyEntries f rest (applyEntry f g el) := rfl
    refine ⟨?_, ?_, ?_⟩
    · rw [happ, hI1, hA1]
    · intro p hp
      rw [happ, hI2 p (fun el2 hmem => hp el2 (List.mem_cons.2 (Or.inr hmem)))]
      obtain ⟨hp1, hp2⟩ := hp el (List.mem_cons_self _ _)
      exact hA2 p hp1 hp2
    · intro el2 hmem
      rcases List.mem_cons.1 hmem with hmem | hmem
      · subst hmem
        refine ⟨?_, ?_, ?_, ?_, ?_, ?_, ?_⟩
        · intro t ht hside
          rw [happ, houtq t (by omega)]
          exact hA3 t ht hside
        · intro t ht1 ht2
          rw [happ, houtq t (by omega)]
          exact hA4 t ht1 ht2
        · intro t ht hside
          rw [happ, houtr t (by omega)]
          exact hA5 t ht hside
        · intro t ht1 ht2
          rw [happ, houtr t (by omega)]
          exact hA6 t ht1 ht2
        · intro t ht
          have harith : el2.q + 46 + t = el2.q + (46 + t) := by omega
          rw [happ, harith, houtq (46 + t) (by omega)]
          have harith2 : el2.q + (46 + t) = el2.q + 46 + t := by omega
          rw [harith2]
          exact hA7 t ht
        · intro hee t ht
          have harith : el2.q + 46 + el2.n + el2.c + t = el2.q + (46 + el2.n + el2.c + t) := by
            omega
          rw [happ, harith, houtq (46 + el2.n + el2.c + t) (by omega)]
          have harith2 : el2.q + (46 + el2.n + el2.c + t) = el2.q + 46 + el2.n + el2.c + t := by
            omega
          rw [harith2]
          exact hA8 hee t ht
        · intro hle t ht
          have harith : el2.r + 30 + el2.ln + t = el2.r + (30 + el2.ln + t) := by omega
          rw [happ, harith, houtr (30 + el2.ln + t) (by omega)]
          have harith2 : el2.r + (30 + el2.ln + t) = el2.r + 30 + el2.ln + t := by omega
          rw [harith2]
          exact hA9 hle t ht
      · obtain ⟨hB1, hB2, hB3, hB4, hB5, hB6, hB7⟩ := hI3 el2 hmem
        obtain ⟨hd1, hd2, hd3, hd4⟩ := hdr el2 hmem
        unfold SpansDisj at hd1 hd2 hd3 hd4
        dsimp only at hd1 hd2 hd3 hd4
        refine ⟨fun t ht hs => by rw [happ]; exact hB1 t ht hs,
          fun t h1 h2 => by rw [happ]; exact hB2 t h1 h2,
          fun t ht hs => by rw [happ]; exact hB3 t ht hs,
          fun t h1 h2 => by rw [happ]; exact hB4 t h1 h2, ?_,
          fun he t ht => by rw [happ]; exact hB6 he t ht,
          fun he t ht => by rw [happ]; exact hB7 he t ht⟩
        intro t ht
        rw [happ, hB5 t ht]
        refine hA2 (el2.q + 46 + t) ?_ ?_ <;> unfold InSpan <;> dsimp only <;> omega

theorem checkEntries_final {f G : List Nat} (hGlen : G.length = f.length) :
    ∀ (els : List EL) (q : Nat),
    layoutsAux f els.length q = some els →
    (∀ el ∈ els, entryValidB f el = true) →
    (∀ s ∈ allSpans els, s.1 + s.2 ≤ f.length) →
    (∀ el ∈ els,
      (∀ t, t < 46 → t < 12 ∨ 16 ≤ t → G[el.q + t]? = f[el.q + t]?) ∧
      (∀ t, 12 ≤ t → t < 16 → G[el.q + t]? = some 0) ∧
      (∀ t, t < 30 → t < 10 ∨ 14 ≤ t → G[el.r + t]? = f[el.r + t]?) ∧
      (∀ t, 10 ≤ t → t < 14 → G[el.r + t]? = some 0)) →
    checkEntries G els.length q = true := by
  intro els
  induction els with
  | nil =>
    intro q _ _ _ _
    rfl
  | cons el rest ih =>
    intro q hlay hvals hbounds hshape
    obtain ⟨el2, rest2, hl1, hl2, hL⟩ := layoutsAux_cons hlay
    injection hL with he1 he2
    subst he1
    subst he2
    have helq : el.q = q := readEntryLayout_q hl1
    rw [allSpans_cons] at hbounds
    have hbq : el.q + (46 + el.n + el.c + el.e) ≤ f.length :=
      hbounds _ (List.mem_cons_self _ _)
    have hbr : el.r + (30 + el.ln + el.lfe) ≤ f.length :=
      hbounds _ (List.mem_cons.2 (Or.inr (List.mem_cons_self _ _)))
    obtain ⟨hqb, hrb, hn, hc, he, hrr, hln, hlfe⟩ :=
      layout_parts (by rw [helq]; exact hl1)
    obtain ⟨hsig, henc, hunk, hn1, hlsig, hlenc, hlunk, hex, hlex⟩ :=
      entryValid_parts (hvals el (List.mem_cons_self _ _)) hqb hrb
    obtain ⟨hS1, hS2, hS3, hS4⟩ := hshape el (List.mem_cons_self _ _)
    have hfslice : ∀ t, t < 46 → ((f.drop el.q).take 46)[t]? = f[el.q + t]? := by
      intro t ht
      rw [List.getElem?_take, if_pos ht, List.getElem?_drop]
    have hlslice : ∀ t, t < 30 → ((f.drop el.r).take 30)[t]? = f[el.r + t]? := by
      intro t ht
      rw [List.getElem?_take, if_pos ht, List.getElem?_drop]
    have hcdG : readN G q 46 = some ((G.drop q).take 46) := readN_some (by omega)
    have hGslice : ∀ t, t < 46 → ((G.drop q).take 46)[t]? = G[el.q + t]? := by
      intro t ht
      rw [List.getElem?_take, if_pos ht, List.getElem?_drop, helq]
    -- decoded fields of the rewritten central-directory record
    have hv0 : le32 ((G.drop q).take 46) 0 = CENDIR_HEADER_SIGNATURE := by
      rw [← hsig]
      refine le32_congr ?_ ?_ ?_ ?_ <;>
        rw [hGslice _ (by omega), hS1 _ (by omega) (by omega), ← hfslice _ (by omega)]
    have hv12 : le16 ((G.drop q).take 46) 12 = 0 := by
      rw [le16_of_getElem (by rw [hGslice 12 (by omega)]; exact hS2 12 (by omega) (by omega))
        (by rw [hGslice 13 (by omega)]; exact hS2 13 (by omega) (by omega))]
    have hv14 : le16 ((G.drop q).take 46) 14 = 0 := by
      rw [le16_of_getElem (by rw [hGslice 14 (by omega)]; exact hS2 14 (by omega) (by omega))
        (by rw [hGslice 15 (by omega)]; exact hS2 15 (by omega) (by omega))]
    have hv42 : le32 ((G.drop q).take 46) 42 = el.r := by
      rw [hrr]
      refine le32_congr ?_ ?_ ?_ ?_ <;>
        rw [hGslice _ (by omega), hS1 _ (by omega) (by omega), ← hfslice _ (by omega)]
    have hv28 : le16 ((G.drop q).take 46) 28 = el.n := by
      rw [hn]
      refine le16_congr ?_ ?_ <;>
        rw [hGslice _ (by omega), hS1 _ (by omega) (by omega), ← hfslice _ (by omega)]
    have hv30 : le16 ((G.drop q).take 46) 30 = el.e := by
      rw [he]
      refine le16_congr ?_ ?_ <;>
        rw [hGslice _ (by omega), hS1 _ (by omega) (by omega), ← hfslice _ (by omega)]
    have hv32 : le16 ((G.drop q).take 46) 32 = el.c := by
      rw [hc]
      refine le16_congr ?_ ?_ <;>
        rw [hGslice _ (by omega), hS1 _ (by omega) (by omega), ← hfslice _ (by omega)]
    -- decoded fields of the rewritten local file header
    have hlfG : readN G el.r 30 = some ((G.drop el.r).take 30) := readN_some (by omega)
    have hGlslice : ∀ t, t < 30 → ((G.drop el.r).take 30)[t]? = G[el.r + t]? := by
      intro t ht
      rw [List.getElem?_take, if_pos ht, List.getElem?_drop]
    have hw0 : le32 ((G.drop el.r).take 30) 0 = FILE_HEADER_SIGNATURE := by
      rw [← hlsig]
      refine le32_congr ?_ ?_ ?_ ?_ <;>
        rw [hGlslice _ (by omega), hS3 _ (by omega) (by omega), ← hlslice _ (by omega)]
    have hw10 : le16 ((G.drop el.r).take 30) 10 = 0 := by
      rw [le16_of_getElem (by rw [hGlslice 10 (by omega)]; exact hS4 10 (by omega) (by omega))
        (by rw [hGlslice 11 (by omega)]; exact hS4 11 (by omega) (by omega))]
    have hw12 : le16 ((G.drop el.r).take 30) 12 = 0 := by
      rw [le16_of_getElem (by rw [hGlslice 12 (by omega)]; exact hS4 12 (by omega) (by omega))
        (by rw [hGlslice 13 (by omega)]; exact hS4 13 (by omega) (by omega))]
    have hnext : checkEntries G rest.length (q + 46 + el.n + el.c + el.e) = true :=
      ih (q + 46 + el.n + el.c + el.e) hl2
        (fun e2 h2 => hvals e2 (List.mem_cons.2 (Or.inr h2)))
        (fun s hs => hbounds s (List.mem_cons.2 (Or.inr (List.mem_cons.2 (Or.inr hs)))))
        (fun e2 h2 => hshape e2 (List.mem_cons.2 (Or.inr h2)))
    rw [List.length_cons, checkEntries, hcdG]
    dsimp only
    rw [hv42, hlfG]
    dsimp only
    rw [hv0, hv12, hv14, hw0, hw10, hw12, hv28, hv30, hv32, hnext]
    simp

theorem staticOK_run {f : List Nat} (hs : staticOK f = true) :
    ∃ eb els pend, readN f (f.length - 22) 22 = some eb ∧
      layoutsAux f (le16 eb 10) (le32 eb 16) = some els ∧
      mainFn f [] = some (0, ⟨applyEntries f els f, pend, []⟩) := by
  obtain ⟨eb, els, h1, hsig, hdisk, hz64, hlays, hvals, hpw, hbounds⟩ := staticOK_parts hs
  have hstart := @mainFn_start f [] eb h1 hsig hdisk hz64
  have hN : els.length = le16 eb 10 := layoutsAux_length hlays
  obtain ⟨pend, hloop⟩ := cdLoop_sim els f (le32 eb 16) (by rw [hN]; exact hlays)
    hvals (fun s hs2 => by have := hbounds s hs2; omega) hpw rfl
    (fun el hmem => ⟨fun t ht => rfl, fun t ht => rfl⟩)
  refine ⟨eb, els, pend, h1, hlays, ?_⟩
  rw [hstart, ← hN, hloop]

theorem c1_amended_core {f f1 : List Nat} (hs : staticOK f = true)
    (hrun : mainRun f [] = some (0, f1)) : timestampsZeroed f1 = true := by
  obtain ⟨eb, els, pend, h1, hlays, hmf⟩ := staticOK_run hs
  obtain ⟨eb2, els2, h12, hsig, hdisk, hz64, hlays2, hvals, hpw, hbounds⟩ := staticOK_parts hs
  have hebs : eb = eb2 := by
    rw [h1] at h12
    exact Option.some.inj h12
  subst hebs
  have helss : els = els2 := by
    rw [hlays] at hlays2
    exact Option.some.inj hlays2
  subst helss
  have hf1 : f1 = applyEntries f els f := by
    unfold mainRun at hrun
    rw [hmf] at hrun
    dsimp only [Option.map] at hrun
    have := Option.some.inj hrun
    exact (congrArg Prod.snd this).symm
  obtain ⟨hL1, hL2, hL3⟩ := applyEntries_facts els f (layoutsAux_mem hlays) hvals
    (fun s hs2 => by have := hbounds s hs2; omega) hpw rfl
  have hGlen : (applyEntries f els f).length = f.length := hL1
  have hout22 : ∀ p, f.length - 22 ≤ p →
      (applyEntries f els f)[p]? = f[p]? := by
    intro p hp
    refine hL2 p (fun el hmem => ?_)
    have hb1 := hbounds _ (show ((el.q, 46 + el.n + el.c + el.e) : Nat × Nat) ∈ allSpans els by
      rw [allSpans]
      exact List.mem_flatMap.2 ⟨el, hmem, by simp [spansOf]⟩)
    have hb2 := hbounds _ (show ((el.r, 30 + el.ln + el.lfe) : Nat × Nat) ∈ allSpans els by
      rw [allSpans]
      exact List.mem_flatMap.2 ⟨el, hmem, by simp [spansOf]⟩)
    dsimp only at hb1 hb2
    constructor <;> unfold InSpan <;> dsimp only <;> omega
  have hebG : readN (applyEntries f els f) ((applyEntries f els f).length - 22) 22 = some eb := by
    rw [hGlen]
    have hr2 := @readN_eq_of_agree (applyEntries f els f) f (f.length - 22) 22
      (by rw [hGlen]; have := (readN_bounds h1).2; omega)
      (by have := (readN_bounds h1).2; omega)
      (fun t ht => (hout22 (f.length - 22 + t) (by omega)))
    have hb0 : f.length - 22 + 22 ≤ f.length := by
      obtain ⟨hl2, hb2⟩ := readN_bounds h1
      omega
    rw [← hr2] at h1
    exact h1
  rw [hf1]
  unfold timestampsZeroed
  rw [hebG]
  dsimp only
  have hN : els.length = le16 eb 10 := layoutsAux_length hlays
  rw [← hN]
  exact checkEntries_final hGlen els (le32 eb 16) (by rw [hN]; exact hlays) hvals
    (fun s hs2 => by have := hbounds s hs2; omega)
    (fun el hmem => by
      obtain ⟨hB1, hB2, hB3, hB4, hB5, hB6, hB7⟩ := hL3 el hmem
      exact ⟨hB1, hB2, hB3, hB4⟩)

theorem zero4_idem {l : List Nat} {i : Nat} (hi : i + 4 ≤ l.length) :
    zero4 (zero4 l i) i = zero4 l i := by
  apply List.ext_getElem?
  intro x
  by_cases hx : i ≤ x ∧ x < i + 4
  · rw [zero4_getElem_in (by rw [zero4_length]; omega) hx, zero4_getElem_in hi hx]
  · rw [zero4_getElem_out (by omega), zero4_getElem_out (by omega)]

theorem processEntry_idem {f G : List Nat} {el : EL}
    (hlay : readEntryLayout f el.q = some el)
    (hval : entryValidB f el = true)
    (hbq : el.q + 46 + el.n + el.c + el.e ≤ f.length)
    (hbr : el.r + 30 + el.ln + el.lfe ≤ f.length)
    (hdisj : SpansDisj (el.q, 46 + el.n + el.c + el.e) (el.r, 30 + el.ln + el.lfe))
    (hGlen : G.length = f.length)
    (hS1 : ∀ t, t < 46 → t < 12 ∨ 16 ≤ t → G[el.q + t]? = f[el.q + t]?)
    (hS2 : ∀ t, 12 ≤ t → t < 16 → G[el.q + t]? = some 0)
    (hS3 : ∀ t, t < 30 → t < 10 ∨ 14 ≤ t → G[el.r + t]? = f[el.r + t]?)
    (hS4 : ∀ t, 10 ≤ t → t < 14 → G[el.r + t]? = some 0)
    (hS6 : el.e ≠ 0 → ∀ t, t < el.e → G[el.q + 46 + el.n + el.c + t]? =
      (purifyOut f (el.q + 46 + el.n + el.c) el.e)[t]?)
    (hS7 : el.lfe ≠ 0 → ∀ t, t < el.lfe → G[el.r + 30 + el.ln + t]? =
      (purifyOut f (el.r + 30 + el.ln) el.lfe)[t]?) :
    processEntry ⟨G, el.q, []⟩ =
      some (none, ⟨G, el.q + 46 + el.n + el.c + el.e, []⟩) := by
  obtain ⟨hqb, hrb, hn, hc, he, hrr, hln, hlfe⟩ := layout_parts hlay
  obtain ⟨hsig, henc, hunk, hn1, hlsig, hlenc, hlunk, hex, hlex⟩ :=
    entryValid_parts hval hqb hrb
  have hcdLen : ((f.drop el.q).take 46).length = 46 := by
    simp only [List.length_take, List.length_drop]
    omega
  have hlfLen : ((f.drop el.r).take 30).length = 30 := by
    simp only [List.length_take, List.length_drop]
    omega
  have hzlen : (zero4 ((f.drop el.q).take 46) 12).length = 46 := by
    rw [zero4_length, hcdLen]
  have hzllen : (zero4 ((f.drop el.r).take 30) 10).length = 30 := by
    rw [zero4_length, hlfLen]
  have hfslice : ∀ t, t < 46 → ((f.drop el.q).take 46)[t]? = f[el.q + t]? := by
    intro t ht
    rw [List.getElem?_take, if_pos ht, List.getElem?_drop]
  have hlslice : ∀ t, t < 30 → ((f.drop el.r).take 30)[t]? = f[el.r + t]? := by
    intro t ht
    rw [List.getElem?_take, if_pos ht, List.getElem?_drop]
  -- the record slice of G is the zeroed image of the original record
  have hcdbG : (G.drop el.q).take 46 = zero4 ((f.drop el.q).take 46) 12 := by
    apply List.ext_getElem?
    intro x
    by_cases hx : x < 46
    · have hGx : ((G.drop el.q).take 46)[x]? = G[el.q + x]? := by
        rw [List.getElem?_take, if_pos hx, List.getElem?_drop]
      by_cases hz : 12 ≤ x ∧ x < 16
      · rw [hGx, hS2 x hz.1 hz.2, zero4_getElem_in (by rw [hcdLen]; omega) hz]
      · rw [hGx, hS1 x hx (by omega), zero4_getElem_out (by omega), hfslice x hx]
    · rw [List.getElem?_eq_none (by simp only [List.length_take, List.length_drop]; omega),
        List.getElem?_eq_none (by rw [hzlen]; omega)]
  have hlfbG : (G.drop el.r).take 30 = zero4 ((f.drop el.r).take 30) 10 := by
    apply List.ext_getElem?
    intro x
    by_cases hx : x < 30
    · have hGx : ((G.drop el.r).take 30)[x]? = G[el.r + x]? := by
        rw [List.getElem?_take, if_pos hx, List.getElem?_drop]
      by_cases hz : 10 ≤ x ∧ x < 14
      · rw [hGx, hS4 x hz.1 hz.2, zero4_getElem_in (by rw [hlfLen]; omega) hz]
      · rw [hGx, hS3 x hx (by omega), zero4_getElem_out (by omega), hlslice x hx]
    · rw [List.getElem?_eq_none (by simp only [List.length_take, List.length_drop]; omega),
        List.getElem?_eq_none (by rw [hzllen]; omega)]
  have hz0 : le32 (zero4 ((f.drop el.q).take 46) 12) 0 = CENDIR_HEADER_SIGNATURE := by
    rw [le32_congr (zero4_getElem_out (by omega)) (zero4_getElem_out (by omega))
      (zero4_getElem_out (by omega)) (zero4_getElem_out (by omega)), hsig]
  have hz8 : le16 (zero4 ((f.drop el.q).take 46) 12) 8 = le16 ((f.drop el.q).take 46) 8 :=
    le16_congr (zero4_getElem_out (by omega)) (zero4_getElem_out (by omega))
  have hz28 : le16 (zero4 ((f.drop el.q).take 46) 12) 28 = el.n := by
    rw [le16_congr (zero4_getElem_out (by omega)) (zero4_getElem_out (by omega)), hn]
  have hz32 : le16 (zero4 ((f.drop el.q).take 46) 12) 32 = el.c := by
    rw [le16_congr (zero4_getElem_out (by omega)) (zero4_getElem_out (by omega)), hc]
  have hz30 : le16 (zero4 ((f.drop el.q).take 46) 12) 30 = el.e := by
    rw [le16_congr (zero4_getElem_out (by omega)) (zero4_getElem_out (by omega)), he]
  have hz42 : le32 (zero4 ((f.drop el.q).take 46) 12) 42 = el.r := by
    rw [le32_congr (zero4_getElem_out (by omega)) (zero4_getElem_out (by omega))
      (zero4_getElem_out (by omega)) (zero4_getElem_out (by omega)), hrr]
  have hw0 : le32 (zero4 ((f.drop el.r).take 30) 10) 0 = FILE_HEADER_SIGNATURE := by
    rw [le32_congr (zero4_getElem_out (by omega)) (zero4_getElem_out (by omega))
      (zero4_getElem_out (by omega)) (zero4_getElem_out (by omega)), hlsig]
  have hw6 : le16 (zero4 ((f.drop el.r).take 30) 10) 6 = le16 ((f.drop el.r).take 30) 6 :=
    le16_congr (zero4_getElem_out (by omega)) (zero4_getElem_out (by omega))
  have hw26 : le16 (zero4 ((f.drop el.r).take 30) 10) 26 = el.ln := by
    rw [le16_congr (zero4_getElem_out (by omega)) (zero4_getElem_out (by omega)), hln]
  have hw28 : le16 (zero4 ((f.drop el.r).take 30) 10) 28 = el.lfe := by
    rw [le16_congr (zero4_getElem_out (by omega)) (zero4_getElem_out (by omega)), hlfe]
  unfold processEntry
  rw [fread_pos (by omega) (by dsimp only; omega)]
  dsimp only
  rw [hcdbG, hz0, hz8]
  rw [if_neg (by simp), if_neg (by simp), if_neg (by simp [henc]), if_neg (by simp [hunk])]
  rw [zero4_idem (by rw [hcdLen]; omega)]
  rw [overwrite_field_eq rfl (by dsimp only; rw [hzlen]; omega)]
  dsimp only
  rw [hzlen]
  have hq46 : el.q + 46 - 46 = el.q := by omega
  rw [hq46]
  have hwself : writeN G el.q (zero4 ((f.drop el.q).take 46) 12) = G := by
    rw [← hcdbG]
    exact writeN_self (readN_some (by omega))
  rw [hwself, hz28]
  rw [fread_pos (by omega) (by dsimp only; omega)]
  dsimp only
  rw [if_neg (by simp)]
  rw [hz32]
  have hcomm :
      (if 0 < el.c then
        match fread el.c ⟨G, el.q + 46 + el.n, []⟩ with
        | (rc, _comment, stc) => if rc ≠ 1 then (some (-1 : Int), stc) else (none, stc)
       else (none, ⟨G, el.q + 46 + el.n, []⟩)) =
      (none, ⟨G, el.q + 46 + el.n + el.c, []⟩) := by
    by_cases hc0 : 0 < el.c
    · rw [if_pos hc0, fread_pos (by omega) (by dsimp only; omega)]
      dsimp only
      rw [if_neg (by simp)]
    · rw [if_neg hc0]
      have hcz : el.c = 0 := by omega
      rw [hcz]
      simp
  rw [hcomm]
  dsimp only
  rw [hz30]
  have hextra : extraPhase el.e ⟨G, el.q + 46 + el.n + el.c, []⟩ =
      some (none, ⟨G, el.q + 46 + el.n + el.c + el.e, []⟩) := by
    by_cases hee : el.e = 0
    · rw [hee, extraPhase_zero]
      simp
    · obtain ⟨b2, hb2⟩ := hex hee (by omega)
      have hpo : purifyOut f (el.q + 46 + el.n + el.c) el.e = b2 := by
        unfold purifyOut
        rw [hb2]
      have hb2len : b2.length = el.e := by
        rw [purify_ok_length hb2]
        simp only [List.length_take, List.length_drop]
        omega
      have hslice : (G.drop (el.q + 46 + el.n + el.c)).take el.e = b2 := by
        apply List.ext_getElem?
        intro x
        by_cases hx : x < el.e
        · have hGx : ((G.drop (el.q + 46 + el.n + el.c)).take el.e)[x]? =
              G[el.q + 46 + el.n + el.c + x]? := by
            rw [List.getElem?_take, if_pos hx, List.getElem?_drop]
          rw [hGx, hS6 hee x hx, hpo]
        · rw [List.getElem?_eq_none (by simp only [List.length_take, List.length_drop]; omega),
            List.getElem?_eq_none (by rw [hb2len]; omega)]
      have hidem : purify_extra_data el.e b2 = some (.ok b2) := purifyAux_idem hb2
      rw [extraPhase_run rfl hee (by dsimp only; omega) (by dsimp only; rw [hslice]; exact hidem)]
      dsimp only
      have hws : writeN G (el.q + 46 + el.n + el.c) b2 = G := by
        rw [← hslice]
        exact writeN_self (readN_some (by omega))
      rw [hws]
  rw [hextra]
  dsimp only
  rw [hz42, fseek_set_eq]
  dsimp only
  rw [fread_pos (by omega) (by dsimp only; omega)]
  dsimp only
  rw [hlfbG, hw0, hw6]
  rw [if_neg (by simp), if_neg (by simp), if_neg (by simp [hlenc]), if_neg (by simp [hlunk])]
  rw [zero4_idem (by rw [hlfLen]; omega)]
  rw [overwrite_field_eq rfl (by dsimp only; rw [hzllen]; omega)]
  dsimp only
  rw [hzllen]
  have hr30 : el.r + 30 - 30 = el.r := by omega
  rw [hr30]
  have hwself2 : writeN G el.r (zero4 ((f.drop el.r).take 30) 10) = G := by
    rw [← hlfbG]
    exact writeN_self (readN_some (by omega))
  rw [hwself2, hw26, hw28]
  rw [fseek_cur_eq]
  dsimp only
  have hextra2 : extraPhase el.lfe ⟨G, el.r + 30 + el.ln, []⟩ =
      some (none, ⟨G, el.r + 30 + el.ln + el.lfe, []⟩) := by
    by_cases hle : el.lfe = 0
    · rw [hle, extraPhase_zero]
      simp
    · obtain ⟨b2, hb2⟩ := hlex hle (by omega)
      have hpo : purifyOut f (el.r + 30 + el.ln) el.lfe = b2 := by
        unfold purifyOut
        rw [hb2]
      have hb2len : b2.length = el.lfe := by
        rw [purify_ok_length hb2]
        simp only [List.length_take, List.length_drop]
        omega
      have hslice : (G.drop (el.r + 30 + el.ln)).take el.lfe = b2 := by
        apply List.ext_getElem?
        intro x
        by_cases hx : x < el.lfe
        · have hGx : ((G.drop (el.r + 30 + el.ln)).take el.lfe)[x]? =
              G[el.r + 30 + el.ln + x]? := by
            rw [List.getElem?_take, if_pos hx, List.getElem?_drop]
          rw [hGx, hS7 hle x hx, hpo]
        · rw [List.getElem?_eq_none (by simp only [List.length_take, List.length_drop]; omega),
            List.getElem?_eq_none (by rw [hb2len]; omega)]
      have hidem : purify_extra_data el.lfe b2 = some (.ok b2) := purifyAux_idem hb2
      rw [extraPhase_run rfl hle (by dsimp only; omega) (by dsimp only; rw [hslice]; exact hidem)]
      dsimp only
      have hws : writeN G (el.r + 30 + el.ln) b2 = G := by
        rw [← hslice]
        exact writeN_self (readN_some (by omega))
      rw [hws]
  rw [hextra2]
  dsimp only
  rw [fseek_set_eq]

theorem cdLoop_idem {f G : List Nat} (hGlen : G.length = f.length) :
    ∀ (els : List EL) (q : Nat),
    layoutsAux f els.length q = some els →
    (∀ el ∈ els, entryValidB f el = true) →
    (∀ s ∈ allSpans els, s.1 + s.2 ≤ f.length) →
    List.Pairwise SpansDisj (allSpans els) →
    (∀ el ∈ els,
      (∀ t, t < 46 → t < 12 ∨ 16 ≤ t → G[el.q + t]? = f[el.q + t]?) ∧
      (∀ t, 12 ≤ t → t < 16 → G[el.q + t]? = some 0) ∧
      (∀ t, t < 30 → t < 10 ∨ 14 ≤ t → G[el.r + t]? = f[el.r + t]?) ∧
      (∀ t, 10 ≤ t → t < 14 → G[el.r + t]? = some 0) ∧
      (el.e ≠ 0 → ∀ t, t < el.e → G[el.q + 46 + el.n + el.c + t]? =
        (purifyOut f (el.q + 46 + el.n + el.c) el.e)[t]?) ∧
      (el.lfe ≠ 0 → ∀ t, t < el.lfe → G[el.r + 30 + el.ln + t]? =
        (purifyOut f (el.r + 30 + el.ln) el.lfe)[t]?)) →
    ∃ pend, cdLoop els.length ⟨G, q, []⟩ = some (0, ⟨G, pend, []⟩) := by
  intro els
  induction els with
  | nil =>
    intro q _ _ _ _ _
    exact ⟨q, rfl⟩
  | cons el rest ih =>
    intro q hlay hvals hbounds hpw hshape
    obtain ⟨el2, rest2, hl1, hl2, hL⟩ := layoutsAux_cons hlay
    injection hL with he1 he2
    subst he1
    subst he2
    have helq : el.q = q := readEntryLayout_q hl1
    rw [allSpans_cons] at hbounds hpw
    obtain ⟨hpw1, hpw⟩ := List.pairwise_cons.1 hpw
    obtain ⟨hpw2, hpwrest⟩ := List.pairwise_cons.1 hpw
    have hdisj : SpansDisj (el.q, 46 + el.n + el.c + el.e) (el.r, 30 + el.ln + el.lfe) :=
      hpw1 _ (List.mem_cons_self _ _)
    have hbq : el.q + (46 + el.n + el.c + el.e) ≤ f.length :=
      hbounds _ (List.mem_cons_self _ _)
    have hbr : el.r + (30 + el.ln + el.lfe) ≤ f.length :=
      hbounds _ (List.mem_cons.2 (Or.inr (List.mem_cons_self _ _)))
    obtain ⟨hS1, hS2, hS3, hS4, hS6, hS7⟩ := hshape el (List.mem_cons_self _ _)
    have hstep := processEntry_idem (by rw [helq]; exact hl1)
      (hvals el (List.mem_cons_self _ _)) (by omega) (by omega) hdisj hGlen
      hS1 hS2 hS3 hS4 hS6 hS7
    obtain ⟨pend, hrest⟩ := ih (el.q + 46 + el.n + el.c + el.e)
      (by rw [helq]; exact hl2)
      (fun e2 he2 => hvals e2 (List.mem_cons.2 (Or.inr he2)))
      (fun s hs => hbounds s (List.mem_cons.2 (Or.inr (List.mem_cons.2 (Or.inr hs)))))
      hpwrest (fun e2 he2 => hshape e2 (List.mem_cons.2 (Or.inr he2)))
    refine ⟨pend, ?_⟩
    rw [List.length_cons, cdLoop, ← helq, hstep]
    dsimp only
    rw [hrest]

theorem c3_amended_core {f f1 : List Nat} (hs : staticOK f = true)
    (hrun : mainRun f [] = some (0, f1)) : mainRun f1 [] = some (0, f1) := by
  obtain ⟨eb, els, pend, h1, hlays, hmf⟩ := staticOK_run hs
  obtain ⟨eb2, els2, h12, hsig, hdisk, hz64, hlays2, hvals, hpw, hbounds⟩ := staticOK_parts hs
  have hebs : eb = eb2 := by
    rw [h1] at h12
    exact Option.some.inj h12
  subst hebs
  have helss : els = els2 := by
    rw [hlays] at hlays2
    exact Option.some.inj hlays2
  subst helss
  have hf1 : f1 = applyEntries f els f := by
    unfold mainRun at hrun
    rw [hmf] at hrun
    dsimp only [Option.map] at hrun
    have := Option.some.inj hrun
    exact (congrArg Prod.snd this).symm
  obtain ⟨hL1, hL2, hL3⟩ := applyEntries_facts els f (layoutsAux_mem hlays) hvals
    (fun s hs2 => by have := hbounds s hs2; omega) hpw rfl
  have hGlen : (applyEntries f els f).length = f.length := hL1
  have hout22 : ∀ p, f.length - 22 ≤ p →
      (applyEntries f els f)[p]? = f[p]? := by
    intro p hp
    refine hL2 p (fun el hmem => ?_)
    have hb1 := hbounds _ (show ((el.q, 46 + el.n + el.c + el.e) : Nat × Nat) ∈ allSpans els by
      rw [allSpans]
      exact List.mem_flatMap.2 ⟨el, hmem, by simp [spansOf]⟩)
    have hb2 := hbounds _ (show ((el.r, 30 + el.ln + el.lfe) : Nat × Nat) ∈ allSpans els by
      rw [allSpans]
      exact List.mem_flatMap.2 ⟨el, hmem, by simp [spansOf]⟩)
    dsimp only at hb1 hb2
    constructor <;> unfold InSpan <;> dsimp only <;> omega
  have hebG : readN (applyEntries f els f) ((applyEntries f els f).length - 22) 22 = some eb := by
    rw [hGlen]
    have hr2 := @readN_eq_of_agree (applyEntries f els f) f (f.length - 22) 22
      (by rw [hGlen]; have := (readN_bounds h1).2; omega)
      (by have := (readN_bounds h1).2; omega)
      (fun t ht => (hout22 (f.length - 22 + t) (by omega)))
    rw [← hr2] at h1
    exact h1
  have hN : els.length = le16 eb 10 := layoutsAux_length hlays
  have hstart2 : mainFn f1 [] = cdLoop (le16 eb 10) ⟨f1, le32 eb 16, []⟩ := by
    refine mainFn_start ?_ hsig hdisk hz64
    rw [hf1]
    exact hebG
  obtain ⟨pend2, hloop2⟩ := @cdLoop_idem f (applyEntries f els f) hGlen els
    (le32 eb 16) (by rw [hN]; exact hlays) hvals
    (fun s hs2 => by have := hbounds s hs2; omega) hpw
    (fun el hmem => by
      obtain ⟨hB1, hB2, hB3, hB4, hB5, hB6, hB7⟩ := hL3 el hmem
      exact ⟨hB1, hB2, hB3, hB4, hB6, hB7⟩)
  unfold mainRun
  rw [hstart2, hf1, ← hN, hloop2]
  rfl

theorem fread_file (n : Nat) (st : St) : (fread n st).2.2.file = st.file := by
  unfold fread
  split
  · rfl
  split <;> rfl

theorem fseek_file (o : Int) (w : Whence) (st : St) : ((fseek o w st).2).file = st.file := by
  unfold fseek
  cases w <;> dsimp only <;> split <;> rfl

theorem fread_one {n : Nat} {st : St} (h : (fread n st).1 = 1) :
    (fread n st).2.2.pos = st.pos + n ∧ st.pos + n ≤ st.file.length ∧
    (fread n st).2.1.length = n ∧ n ≠ 0 := by
  unfold fread at h ⊢
  by_cases h0 : n = 0
  · rw [if_pos h0] at h
    cases h
  rw [if_neg h0] at h ⊢
  by_cases hb : st.pos + n ≤ st.file.length
  · rw [if_pos hb] at h ⊢
    refine ⟨rfl, hb, ?_, h0⟩
    dsimp only
    simp only [List.length_take, List.length_drop]
    omega
  · rw [if_neg hb] at h
    cases h

theorem overwrite_field_flen {d : List Nat} {st : St} (h1 : d.length ≤ st.pos)
    (h2 : st.pos ≤ st.file.length) :
    (overwrite_field d st).file.length = st.file.length := by
  unfold overwrite_field fseek fwrite
  dsimp only
  rw [if_neg (show ¬ ((st.pos : Int) + -(d.length : Int) < 0) by omega)]
  dsimp only
  rcases st.faults with _ | ⟨b, rest⟩
  · dsimp only
    rw [writeN_length]
    have : ((st.pos : Int) + -(d.length : Int)).toNat = st.pos - d.length := by omega
    rw [this]
    omega
  · dsimp only
    split
    · rfl
    · dsimp only
      rw [writeN_length]
      have : ((st.pos : Int) + -(d.length : Int)).toNat = st.pos - d.length := by omega
      rw [this]
      omega

theorem extraPhase_flen {e : Nat} {st st2 : St} {out : Option Int}
    (h : extraPhase e st = some (out, st2)) : st2.file.length = st.file.length := by
  unfold extraPhase at h
  split at h
  · cases h
    rfl
  rcases hf : fread e st with ⟨r, b, st1⟩
  rw [hf] at h
  dsimp only at h
  have hfile : st1.file = st.file := by
    have := fread_file e st
    rw [hf] at this
    exact this
  split at h
  · cases h
    rw [hfile]
  next hr1 =>
    have hr : (fread e st).1 = 1 := by
      rw [hf]
      dsimp only
      omega
    obtain ⟨hp1, hp2, hp3, hp4⟩ := fread_one hr
    rw [hf] at hp1 hp3
    dsimp only at hp1 hp3
    split at h
    · cases h
    · cases h
      rw [hfile]
    next b2 hpur =>
      cases h
      rw [overwrite_field_flen (by rw [purify_ok_length hpur, hp3, hp1]; omega)
        (by rw [hp1, hfile]; omega), hfile]

theorem processEntry_flen : ∀ {st : St} {out : Option Int} {st2 : St},
    processEntry st = some (out, st2) → st2.file.length = st.file.length := by
  intro st out st2 h
  unfold processEntry at h
  rcases hf1 : fread 46 st with ⟨r1, cdb0, st1⟩
  rw [hf1] at h
  dsimp only at h
  have hfile1 : st1.file = st.file := by
    have := fread_file 46 st
    rw [hf1] at this
    exact this
  by_cases hr1 : r1 ≠ 1
  · rw [if_pos hr1] at h
    cases h
    rw [hfile1]
  rw [if_neg hr1] at h
  by_cases hsig : le32 cdb0 0 ≠ CENDIR_HEADER_SIGNATURE
  · rw [if_pos hsig] at h
    cases h
    rw [hfile1]
  rw [if_neg hsig] at h
  by_cases henc : Nat.land (le16 cdb0 8) GP_BIT_ENC_MARKERS ≠ 0
  · rw [if_pos henc] at h
    cases h
    rw [hfile1]
  rw [if_neg henc] at h
  by_cases hunk : Nat.land (le16 cdb0 8) GP_BIT_UNKNOWN_FLAG_MASK ≠ 0
  · rw [if_pos hunk] at h
    cases h
    rw [hfile1]
  rw [if_neg hunk] at h
  · have hr : (fread 46 st).1 = 1 := by
      rw [hf1]
      dsimp only
      omega
    obtain ⟨hp1, hp2, hp3, hp4⟩ := fread_one hr
    rw [hf1] at hp1 hp3
    dsimp only at hp1 hp3
    have hzlen : (zero4 cdb0 12).length = cdb0.length := zero4_length cdb0 12
    have hw1 : (overwrite_field (zero4 cdb0 12) st1).file.length = st.file.length := by
      rw [overwrite_field_flen (by rw [hzlen, hp3, hp1]; omega) (by rw [hp1, hfile1]; omega),
        hfile1]
    rcases hf2 : fread (le16 (zero4 cdb0 12) 28) (overwrite_field (zero4 cdb0 12) st1)
      with ⟨r2, nm, stB⟩
    rw [hf2] at h
    dsimp only at h
    have hfileB : stB.file.length = st.file.length := by
      have := fread_file (le16 (zero4 cdb0 12) 28) (overwrite_field (zero4 cdb0 12) st1)
      rw [hf2] at this
      dsimp only at this
      rw [this, hw1]
    split at h
    · cases h
      exact hfileB
    -- comment phase
    rcases hcm : (if 0 < le16 (zero4 cdb0 12) 32 then
        match fread (le16 (zero4 cdb0 12) 32) stB with
        | (rc, _comment, stc) => if rc ≠ 1 then (some (-1 : Int), stc) else (none, stc)
      else (none, stB)) with ⟨oc, stC⟩
    rw [hcm] at h
    have hfileC : stC.file.length = st.file.length := by
      have : stC.file = stB.file := by
        split at hcm
        · rcases hf3 : fread (le16 (zero4 cdb0 12) 32) stB with ⟨rc, cm, stD⟩
          rw [hf3] at hcm
          dsimp only at hcm
          have hD : stD.file = stB.file := by
            have := fread_file (le16 (zero4 cdb0 12) 32) stB
            rw [hf3] at this
            exact this
          split at hcm
          · cases hcm
            exact hD
          · cases hcm
            exact hD
        · cases hcm
          rfl
      rw [this, hfileB]
    rcases oc with _ | rv
    swap
    · dsimp only at h
      cases h
      exact hfileC
    dsimp only at h
    rcases hep : extraPhase (le16 (zero4 cdb0 12) 30) stC with _ | ⟨oe, stE⟩
    · rw [hep] at h
      cases h
    rw [hep] at h
    have hfileE : stE.file.length = st.file.length := by
      rw [extraPhase_flen hep, hfileC]
    rcases oe with _ | re
    swap
    · dsimp only at h
      cases h
      exact hfileE
    dsimp only at h
    -- local header
    rcases hf4 : fread 30 ((fseek (le32 (zero4 cdb0 12) 42) .set stE).2) with ⟨r3, lfb0, stF⟩
    rw [hf4] at h
    dsimp only at h
    have hseekE : ((fseek (le32 (zero4 cdb0 12) 42) .set stE).2).file = stE.file :=
      fseek_file _ _ stE
    have hfileF : stF.file.length = st.file.length := by
      have := fread_file 30 ((fseek (le32 (zero4 cdb0 12) 42) .set stE).2)
      rw [hf4] at this
      dsimp only at this
      rw [this, hseekE, hfileE]
    split at h
    · cases h
      exact hfileF
    split at h
    · cases h
      exact hfileF
    split at h
    · cases h
      exact hfileF
    split at h
    · cases h
      exact hfileF
    next hr3 hlsig hlenc hlunk =>
      have hrr : (fread 30 ((fseek (le32 (zero4 cdb0 12) 42) .set stE).2)).1 = 1 := by
        rw [hf4]
        dsimp only
        omega
      obtain ⟨hq1, hq2, hq3, hq4⟩ := fread_one hrr
      rw [hf4] at hq1 hq3
      dsimp only at hq1 hq3
      have hzllen : (zero4 lfb0 10).length = lfb0.length := zero4_length lfb0 10
      have hw2 : (overwrite_field (zero4 lfb0 10) stF).file.length = st.file.length := by
        rw [overwrite_field_flen (by rw [hzllen, hq3, hq1]; omega)
          (by rw [hq1]
              have := fread_file 30 ((fseek (le32 (zero4 cdb0 12) 42) .set stE).2)
              rw [hf4] at this
              dsimp only at this
              rw [this]
              omega)]
        exact hfileF
      have hseekF : ∀ w o, (((fseek o w (overwrite_field (zero4 lfb0 10) stF)).2)).file =
          (overwrite_field (zero4 lfb0 10) stF).file := fun w o =>
        fseek_file o w (overwrite_field (zero4 lfb0 10) stF)
      rcases hep2 : extraPhase (le16 (zero4 lfb0 10) 28)
          ((fseek (le16 (zero4 lfb0 10) 26) .cur (overwrite_field (zero4 lfb0 10) stF)).2)
          with _ | ⟨ol, stG⟩
      · rw [hep2] at h
        cases h
      rw [hep2] at h
      have hfileG : stG.file.length = st.file.length := by
        rw [extraPhase_flen hep2, hseekF, hw2]
      rcases ol with _ | rl
      swap
      · dsimp only at h
        cases h
        exact hfileG
      dsimp only at h
      cases h
      rw [fseek_file]
      exact hfileG

theorem cdLoop_flen : ∀ {k : Nat} {st : St} {r : Int} {st2 : St},
    cdLoop k st = some (r, st2) → st2.file.length = st.file.length := by
  intro k
  induction k with
  | zero =>
    intro st r st2 h
    rw [cdLoop] at h
    cases h
    rfl
  | succ k ih =>
    intro st r st2 h
    rw [cdLoop] at h
    rcases hp : processEntry st with _ | ⟨o, st1⟩
    · rw [hp] at h
      cases h
    rw [hp] at h
    rcases o with _ | rv
    · dsimp only at h
      rw [ih h, processEntry_flen hp]
    · dsimp only at h
      cases h
      exact processEntry_flen hp

theorem mainFn_flen {f : List Nat} {faults : List Bool} {r : Int} {st2 : St}
    (h : mainFn f faults = some (r, st2)) : st2.file.length = f.length := by
  unfold mainFn at h
  dsimp only at h
  rcases hs : fseek (-22) .fromEnd (⟨f, 0, faults⟩ : St) with ⟨rs, st0⟩
  rw [hs] at h
  dsimp only at h
  have hst0 : st0.file = f := by
    have h2 : (fseek (-22) .fromEnd (⟨f, 0, faults⟩ : St)).2.file = f := fseek_file _ _ _
    rw [hs] at h2
    exact h2
  split at h
  · cases h
    rw [hst0]
  rcases hf : fread 22 st0 with ⟨re, eb, st1⟩
  rw [hf] at h
  dsimp only at h
  have hst1 : st1.file = f := by
    have := fread_file 22 st0
    rw [hf] at this
    dsimp only at this
    rw [this, hst0]
  split at h
  · cases h
    rw [hst1]
  split at h
  · cases h
    rw [hst1]
  split at h
  · cases h
    rw [hst1]
  split at h
  · cases h
    rw [hst1]
  have hseek1 : ((fseek (le32 eb 16) .set st1).2).file = f := by
    rw [fseek_file]
    exact hst1
  calc st2.file.length = ((fseek (le32 eb 16) .set st1).2).file.length := cdLoop_flen h
    _ = f.length := by rw [hseek1]

set_option maxRecDepth 40000 in
/-- C1 (counterexample): a run of the purifier can succeed (exit code 0) on an
archive whose entries overlap, leaving a central-directory record with nonzero
last-modified fields: on `archPath` the second entry's local header overlaps
the first entry's central-directory record, its rewrite zeroes the first
entry's comment-length field, and the central directory of the output archive
then contains a fully valid record with `last_mod_time = 0x1234`. -/
theorem c1_counterexample :
    ((mainRun archPath []).map fun p => (p.1, timestampsZeroed p.2)) = some (0, false) := by
  decide

/-- C1 (amended): after a successful run with no write faults, on an archive
whose entry rewrite regions are pairwise disjoint and stay clear of the
trailer (`staticOK`), every central-directory entry and every local file
header of the output archive has `last_mod_time = 0` and `last_mod_date = 0`. -/
theorem c1_timestamp_erasure (f f1 : List Nat) (hs : staticOK f = true)
    (hrun : mainRun f [] = some (0, f1)) : timestampsZeroed f1 = true :=
  c1_amended_core hs hrun

theorem c1_witness :
    timestampsZeroed ((mainRun archOK []).getD (0, [])).2 = true :=
  c1_timestamp_erasure archOK ((mainRun archOK []).getD (0, [])).2 (by decide) (by decide)

/-- C2: for every extra-field sub-record visited by the purification loop
whose id is 0x5455 (extended timestamp) or 0x7875 (Unix UID/GID) before
processing, after successful processing the sub-record's id equals the
sentinel 0xFFFF, every byte of its declared payload equals 0xFF, and its
declared length field is unchanged. -/
theorem c2_extra_neutralization (len : Nat) (b b2 : List Nat)
    (h : purify_extra_data len b = some (.ok b2))
    (v : Nat) (hv : v ∈ subrecordOffsets len b)
    (hid : le16 b v = 0x5455 ∨ le16 b v = 0x7875) :
    le16 b2 v = STRIPZIP_OPTION_HEADER ∧ le16 b2 (v + 2) = le16 b (v + 2) ∧
    ∀ t, t < le16 b (v + 2) → b2[v + 4 + t]? = some 0xFF :=
  purifyAux_strips h v hv hid

theorem c2_witness :
    le16 [255, 255, 2, 0, 255, 255] 0 = STRIPZIP_OPTION_HEADER ∧
    le16 [255, 255, 2, 0, 255, 255] 2 = le16 [85, 84, 2, 0, 9, 9] 2 ∧
    ∀ t, t < le16 [85, 84, 2, 0, 9, 9] 2 → [255, 255, 2, 0, 255, 255][0 + 4 + t]? = some 0xFF :=
  c2_extra_neutralization 6 [85, 84, 2, 0, 9, 9] [255, 255, 2, 0, 255, 255]
    (by decide) 0 (by decide) (by decide)

set_option maxRecDepth 40000 in
/-- C3 (counterexample): running the purifier twice is not byte-idempotent:
both runs on `archPath` succeed, but the second run changes bytes that the
first run left (it zeroes the timestamps of a record that the first run's
overlapping local-header rewrite exposed in the central-directory walk). -/
theorem c3_counterexample :
    ((mainRun archPath []).bind fun p =>
      (mainRun p.2 []).map fun q => (p.1, q.1, decide (q.2 = p.2))) = some (0, 0, false) := by
  decide

/-- C3 (amended): on an archive whose entry rewrite regions are pairwise
disjoint and stay clear of the trailer (`staticOK`), a second fault-free run
on the output of a successful first run succeeds and leaves every byte
unchanged. -/
theorem c3_idempotence (f f1 : List Nat) (hs : staticOK f = true)
    (hrun : mainRun f [] = some (0, f1)) : mainRun f1 [] = some (0, f1) :=
  c3_amended_core hs hrun

theorem c3_witness :
    mainRun ((mainRun archOK []).getD (0, [])).2 [] =
      some (0, ((mainRun archOK []).getD (0, [])).2) :=
  c3_idempotence archOK ((mainRun archOK []).getD (0, [])).2 (by decide) (by decide)

/-- C4: for every input archive, every fault oracle and every outcome of the
run (success or abort), the archive's total byte length is unchanged: each
write overwrites a region of exactly the bytes just read there, and the file
is never grown or shrunk. -/
theorem c4_length_invariance (f : List Nat) (faults : List Bool) (r : Int) (f2 : List Nat)
    (h : mainRun f faults = some (r, f2)) : f2.length = f.length := by
  unfold mainRun at h
  rcases hm : mainFn f faults with _ | ⟨rr, st2⟩
  · rw [hm] at h
    cases h
  rw [hm] at h
  dsimp only [Option.map] at h
  have h2 := Option.some.inj h
  have hf2 : f2 = st2.file := (congrArg Prod.snd h2).symm
  rw [hf2]
  exact mainFn_flen hm

theorem c4_witness : ((mainRun archOK []).getD (0, [])).2.length = archOK.length :=
  c4_length_invariance archOK [] 0 ((mainRun archOK []).getD (0, [])).2 (by decide)

/-- C5 (counterexample): the purifier does not reject sub-records that
overrun the declared extra-field length: with a declared length of 5, a
sub-record whose 4-byte header plus 3-byte declared payload extends to
offset 7 is processed successfully, and the two payload bytes beyond the
declared length are overwritten with 0xFF rather than reported as an error. -/
theorem c5_counterexample :
    purify_extra_data 5 [0x55, 0x54, 3, 0, 7, 7, 7] = some (.ok [255, 255, 3, 0, 255, 255, 255]) := by
  decide

/-- C5 (amended): the purifier validates sub-record extents only against the
physical buffer, never against the declared extra-field length: for any
payload contents, a known sub-record declared to extend 2 bytes past the
declared length 5 is neutralized in full, its id replaced by the sentinel and
all 3 payload bytes (including the 2 beyond the declared length) set to 0xFF,
with no error reported. -/
theorem c5_no_overrun_check (a b c : Nat) :
    purify_extra_data 5 [0x55, 0x54, 3, 0, a, b, c] = some (.ok [255, 255, 3, 0, 255, 255, 255]) := by
  unfold purify_extra_data
  rw [purifyAux]
  norm_num [le16, List.getD]
  · rfl

lemma fseek_faults (o : Int) (w : Whence) (st : St) :
    ((fseek o w st).2).faults = st.faults := by
  unfold fseek
  cases w <;> dsimp only <;> split <;> rfl

set_option maxRecDepth 40000 in
/-- C7 (counterexample): a short write is not fatal: with a fault oracle
that makes the second write transfer fewer bytes than requested, the run on
`archOK` still returns exit code 0 while the local header's last-modified
time byte keeps its original value 0x34, whereas the fault-free run zeroes
that byte. -/
theorem c7_counterexample :
    ((mainFn archOK [false, true]).map fun p => (p.1, p.2.faults, p.2.file.getD 10 0)) =
      some (0, [], 52) ∧
    ((mainFn archOK []).map fun p => p.2.file.getD 10 0) = some 0 := by
  decide

set_option maxRecDepth 40000 in
/-- C7 (amended): the in-place writer treats a short write as non-fatal: when
the underlying write transfers fewer bytes than requested, `overwrite_field`
merely prints a diagnostic, leaves the file bytes unchanged, and returns
normally so the run continues; in particular a whole run with such a faulted
write can still finish with exit code 0. -/
theorem c7_short_write_not_fatal :
    (∀ (d : List Nat) (st : St) (rest : List Bool), st.faults = true :: rest →
      (overwrite_field d st).file = st.file ∧ (overwrite_field d st).faults = rest) ∧
    ((mainFn archOK [false, true]).map fun p => p.1) = some 0 := by
  constructor
  · intro d st rest hf
    obtain ⟨f0, p0, fl⟩ := st
    dsimp only at hf
    subst hf
    have h1 := fseek_faults (-(d.length : Int)) .cur ⟨f0, p0, true :: rest⟩
    have h2 := fseek_file (-(d.length : Int)) .cur ⟨f0, p0, true :: rest⟩
    unfold overwrite_field
    dsimp only
    rcases hsk : (fseek (-(d.length : Int)) .cur ⟨f0, p0, true :: rest⟩).2 with ⟨f1, p1, fl1⟩
    rw [hsk] at h1 h2
    dsimp only at h1 h2
    subst h1
    subst h2
    exact ⟨rfl, rfl⟩
  · decide

theorem c7_witness :
    (overwrite_field [1, 2, 3] ⟨[5, 5, 5], 3, [true]⟩).file = [5, 5, 5] ∧
    (overwrite_field [1, 2, 3] ⟨[5, 5, 5], 3, [true]⟩).faults = [] :=
  c7_short_write_not_fatal.1 [1, 2, 3] ⟨[5, 5, 5], 3, [true]⟩ [] rfl

/-- C9: the trailer checks reject without modifying the archive: if the 22
trailer bytes read back from `archive_length - 22` do not carry the
end-of-central-directory signature 0x06054b50, or declare a nonzero disk
number (split archive), or declare a central-directory size of 0xFFFFFFFF
(Zip64), the run returns -1 before any write, for every fault oracle, and the
output bytes equal the input bytes. -/
theorem c9_trailer_rejection (f : List Nat) (faults : List Bool) (eb : List Nat)
    (h1 : readN f (f.length - 22) 22 = some eb)
    (hbad : le32 eb 0 ≠ EO_CENDIR_HEADER_SIGNATURE ∨ le16 eb 4 ≠ 0 ∨ le32 eb 12 = 0xFFFFFFFF) :
    mainRun f faults = some (-1, f) := by
  obtain ⟨hebl, hbound⟩ := readN_bounds h1
  have hflen : 22 ≤ f.length := by omega
  have heb : (f.drop (f.length - 22)).take 22 = eb := by
    have h2 := @readN_some f (f.length - 22) 22 (by omega)
    rw [h1] at h2
    exact (Option.some.inj h2).symm
  unfold mainRun mainFn fseek
  dsimp only
  rw [if_neg (show ¬ ((f.length : Int) + (-22) < 0) by omega)]
  dsimp only
  rw [if_neg (show ¬ ((0 : Int) < 0) by omega)]
  have htn : ((f.length : Int) + (-22)).toNat = f.length - 22 := by omega
  rw [htn]
  rw [fread_pos (by omega) (by dsimp only; omega)]
  dsimp only
  rw [heb]
  rw [if_neg (show ¬ (1 : Nat) ≠ 1 by simp)]
  by_cases hc1 : le32 eb 0 ≠ EO_CENDIR_HEADER_SIGNATURE
  · rw [if_pos hc1]
    rfl
  · rw [if_neg hc1]
    by_cases hc2 : le16 eb 4 ≠ 0
    · rw [if_pos hc2]
      rfl
    · rw [if_neg hc2]
      by_cases hc3 : le32 eb 12 = 0xFFFFFFFF
      · rw [if_pos hc3]
        rfl
      · rcases hbad with h | h | h
        · exact absurd h hc1
        · exact absurd h hc2
        · exact absurd h hc3

theorem c9_witness :
    mainRun [0, 0, 0, 0, 0, 0, 0, 0, 0, 0, 0, 0, 0, 0, 0, 0, 0, 0, 0, 0, 0, 0] [] =
      some (-1, [0, 0, 0, 0, 0, 0, 0, 0, 0, 0, 0, 0, 0, 0, 0, 0, 0, 0, 0, 0, 0, 0]) :=
  c9_trailer_rejection _ [] [0, 0, 0, 0, 0, 0, 0, 0, 0, 0, 0, 0, 0, 0, 0, 0, 0, 0, 0, 0, 0, 0]
    (by decide) (Or.inl (by decide))

/-- C8: an extra sub-record whose id is neither 0x5455 nor 0x7875 nor the
sentinel 0xFFFF makes the extra-field phase return -1 without writing the
purified buffer back (the state is exactly the post-read state), and an entry
that returns an error code ends the central-directory loop at once: the
remaining entries are never processed. -/
theorem c8_unknown_extra_aborts :
    (∀ (e : Nat) (st : St) (b : List Nat) (st1 : St) (id hl : Nat) (b2 : List Nat),
      e ≠ 0 → fread e st = (1, b, st1) →
      purify_extra_data e b = some (.unknown id hl b2) →
      extraPhase e st = some (some (-1), st1) ∧
      id ≠ 0x5455 ∧ id ≠ 0x7875 ∧ id ≠ STRIPZIP_OPTION_HEADER) ∧
    (∀ (k : Nat) (st st1 : St) (r : Int),
      processEntry st = some (some r, st1) → cdLoop (k + 1) st = some (r, st1)) := by
  constructor
  · intro e st b st1 id hl b2 he hr hp
    refine ⟨?_, purifyAux_unknown hp⟩
    unfold extraPhase
    rw [if_neg he, hr]
    dsimp only
    rw [if_neg (show ¬ (1 : Nat) ≠ 1 by simp)]
    rw [hp]
  · intro k st st1 r h
    rw [cdLoop, h]

theorem c8_witness :
    (extraPhase 4 ⟨[0x99, 0x99, 0, 0], 0, []⟩ = some (some (-1), ⟨[0x99, 0x99, 0, 0], 4, []⟩) ∧
      0x9999 ≠ 0x5455 ∧ 0x9999 ≠ 0x7875 ∧ 0x9999 ≠ STRIPZIP_OPTION_HEADER) ∧
    cdLoop 3 ⟨[], 0, []⟩ = some (-1, ⟨[], 0, []⟩) :=
  ⟨c8_unknown_extra_aborts.1 4 ⟨[0x99, 0x99, 0, 0], 0, []⟩ [0x99, 0x99, 0, 0]
      ⟨[0x99, 0x99, 0, 0], 4, []⟩ 0x9999 0 [0x99, 0x99, 0, 0]
      (by decide) (by decide) (by decide),
    c8_unknown_extra_aborts.2 2 ⟨[], 0, []⟩ ⟨[], 0, []⟩ (-1) (by decide)⟩

set_option maxRecDepth 40000 in
/-- C10: a central-directory entry whose file-name length field is 0 aborts
the run when reached: the zero-length name `fread` returns 0 (not the element
count 1), which the walker treats as a failed read and returns -1, the abort
state being the one right after the entry's record rewrite; by contrast an
entry with a zero-length comment is accepted (on `archOK`, whose single entry
has comment length 0, the whole run returns exit code 0). -/
theorem c10_zero_name_rejected :
    (∀ (st : St) (cdb0 : List Nat) (st1 : St),
      fread 46 st = (1, cdb0, st1) →
      le32 cdb0 0 = CENDIR_HEADER_SIGNATURE →
      Nat.land (le16 cdb0 8) GP_BIT_ENC_MARKERS = 0 →
      Nat.land (le16 cdb0 8) GP_BIT_UNKNOWN_FLAG_MASK = 0 →
      le16 cdb0 28 = 0 →
      processEntry st = some (some (-1), overwrite_field (zero4 cdb0 12) st1)) ∧
    ((mainRun archOK []).map Prod.fst = some 0) := by
  constructor
  · intro st cdb0 st1 hr hsig henc hunk hnm
    unfold processEntry
    rw [hr]
    dsimp only
    rw [if_neg (show ¬ (1 : Nat) ≠ 1 by simp)]
    rw [if_neg (not_not_intro hsig)]
    rw [if_neg (not_not_intro henc)]
    rw [if_neg (not_not_intro hunk)]
    have h28 : le16 (zero4 cdb0 12) 28 = 0 := by
      rw [le16_congr (zero4_getElem_out (by omega)) (zero4_getElem_out (by omega))]
      exact hnm
    rw [h28]
    rw [show fread 0 (overwrite_field (zero4 cdb0 12) st1) =
      (0, [], overwrite_field (zero4 cdb0 12) st1) from rfl]
    dsimp only
    rw [if_pos (show (0 : Nat) ≠ 1 by simp)]
  · decide

theorem c10_witness :
    processEntry ⟨archC10, 31, []⟩ =
      some (some (-1),
        overwrite_field (zero4 ((fread 46 ⟨archC10, 31, []⟩).2.1) 12)
          (fread 46 ⟨archC10, 31, []⟩).2.2) :=
  c10_zero_name_rejected.1 ⟨archC10, 31, []⟩ (fread 46 ⟨archC10, 31, []⟩).2.1
    (fread 46 ⟨archC10, 31, []⟩).2.2 (by decide) (by decide) (by decide) (by decide) (by decide)

set_option maxRecDepth 40000 in
/-- C6 (counterexample): the claim fails for entries whose central-directory
flags are clean but whose local-header flags are bad: on `archC6` the local
file header has the encryption bit set while the central-directory record's
general-purpose flags are 0, and the run aborts with -1 only after the
central-directory record's timestamp bytes at offsets 43 and 44 (originally
0x45 and 0x23) have already been zeroed and written back. -/
theorem c6_counterexample :
    Nat.land (le16 archC6 6) GP_BIT_ENC_MARKERS ≠ 0 ∧
    Nat.land (le16 archC6 39) GP_BIT_ENC_MARKERS = 0 ∧
    Nat.land (le16 archC6 39) GP_BIT_UNKNOWN_FLAG_MASK = 0 ∧
    ((mainRun archC6 []).map fun p => (p.1, p.2.getD 43 0, p.2.getD 44 0)) = some (-1, 0, 0) ∧
    archC6.getD 43 0 = 69 ∧ archC6.getD 44 0 = 35 := by
  decide

/-- C6 (amended): flag validation is per-record, not per-entry: an entry whose
central-directory record carries an encryption bit or an unknown
general-purpose bit is rejected before any write for that entry (the file is
untouched at the abort); but when the central-directory record's flags are
clean and only the local file header's flags are bad, the run aborts after
the entry's central-directory record (and its extra field) has already been
rewritten, before the local header itself is rewritten. -/
theorem c6_flag_rejection :
    (∀ (st : St) (cdb0 : List Nat) (st1 : St),
      fread 46 st = (1, cdb0, st1) →
      le32 cdb0 0 = CENDIR_HEADER_SIGNATURE →
      (Nat.land (le16 cdb0 8) GP_BIT_ENC_MARKERS ≠ 0 ∨
        Nat.land (le16 cdb0 8) GP_BIT_UNKNOWN_FLAG_MASK ≠ 0) →
      processEntry st = some (some (-1), st1) ∧ st1.file = st.file) ∧
    (∀ (st : St) (cdb0 : List Nat) (st1 : St) (nm cm : List Nat) (stB stC stE : St)
      (lfb0 : List Nat) (stF : St),
      fread 46 st = (1, cdb0, st1) →
      le32 cdb0 0 = CENDIR_HEADER_SIGNATURE →
      Nat.land (le16 cdb0 8) GP_BIT_ENC_MARKERS = 0 →
      Nat.land (le16 cdb0 8) GP_BIT_UNKNOWN_FLAG_MASK = 0 →
      fread (le16 (zero4 cdb0 12) 28) (overwrite_field (zero4 cdb0 12) st1) = (1, nm, stB) →
      ((le16 (zero4 cdb0 12) 32 = 0 ∧ stC = stB) ∨
        (0 < le16 (zero4 cdb0 12) 32 ∧
          fread (le16 (zero4 cdb0 12) 32) stB = (1, cm, stC))) →
      extraPhase (le16 (zero4 cdb0 12) 30) stC = some (none, stE) →
      fread 30 ((fseek ((le32 (zero4 cdb0 12) 42 : Nat) : Int) .set stE).2) = (1, lfb0, stF) →
      le32 lfb0 0 = FILE_HEADER_SIGNATURE →
      (Nat.land (le16 lfb0 6) GP_BIT_ENC_MARKERS ≠ 0 ∨
        Nat.land (le16 lfb0 6) GP_BIT_UNKNOWN_FLAG_MASK ≠ 0) →
      processEntry st = some (some (-1), stF) ∧ stF.file = stE.file) := by
  constructor
  · intro st cdb0 st1 hr hsig hbad
    have hfile : st1.file = st.file := by
      have h1 := fread_file 46 st
      rw [hr] at h1
      exact h1
    refine ⟨?_, hfile⟩
    unfold processEntry
    rw [hr]
    dsimp only
    rw [if_neg (show ¬ (1 : Nat) ≠ 1 by simp)]
    rw [if_neg (not_not_intro hsig)]
    by_cases he : Nat.land (le16 cdb0 8) GP_BIT_ENC_MARKERS ≠ 0
    · rw [if_pos he]
    · rw [if_neg he]
      rcases hbad with h | h
      · exact absurd h he
      · rw [if_pos h]
  · intro st cdb0 st1 nm cm stB stC stE lfb0 stF hr hsig henc hunk hn hcm hep hlf hlsig hbad
    have hfile : stF.file = stE.file := by
      have h1 := fread_file 30 ((fseek ((le32 (zero4 cdb0 12) 42 : Nat) : Int) .set stE).2)
      rw [hlf] at h1
      rw [fseek_file] at h1
      exact h1
    refine ⟨?_, hfile⟩
    unfold processEntry
    rw [hr]
    dsimp only
    rw [if_neg (show ¬ (1 : Nat) ≠ 1 by simp)]
    rw [if_neg (not_not_intro hsig)]
    rw [if_neg (not_not_intro henc)]
    rw [if_neg (not_not_intro hunk)]
    rw [hn]
    dsimp only
    rw [if_neg (show ¬ (1 : Nat) ≠ 1 by simp)]
    rcases hcm with ⟨h0, rfl⟩ | ⟨hpos, hfr⟩
    · rw [if_neg (show ¬ 0 < le16 (zero4 cdb0 12) 32 by rw [h0 ]; exact Nat.lt_irrefl 0)]
      dsimp only
      rw [hep]
      dsimp only
      rw [hlf]
      dsimp only
      rw [if_neg (show ¬ (1 : Nat) ≠ 1 by simp)]
      rw [if_neg (not_not_intro hlsig)]
      by_cases he2 : Nat.land (le16 lfb0 6) GP_BIT_ENC_MARKERS ≠ 0
      · rw [if_pos he2]
      · rw [if_neg he2]
        rcases hbad with h | h
        · exact absurd h he2
        · rw [if_pos h]
    · rw [if_pos hpos, hfr]
      dsimp only
      rw [if_neg (show ¬ (1 : Nat) ≠ 1 by simp)]
      dsimp only
      rw [hep]
      dsimp only
      rw [hlf]
      dsimp only
      rw [if_neg (show ¬ (1 : Nat) ≠ 1 by simp)]
      rw [if_neg (not_not_intro hlsig)]
      by_cases he2 : Nat.land (le16 lfb0 6) GP_BIT_ENC_MARKERS ≠ 0
      · rw [if_pos he2]
      · rw [if_neg he2]
        rcases hbad with h | h
        · exact absurd h he2
        · rw [if_pos h]

set_option maxRecDepth 40000 in
theorem c6_witness :
    processEntry st6A = some (some (-1), st6F) ∧ st6F.file = st6B.file :=
  c6_flag_rejection.2 st6A cdb6 st6B0 nm6 [] st6B st6B st6B lfb6 st6F
    (by decide) (by decide) (by decide) (by decide) (by decide)
    (Or.inl ⟨by decide, rfl⟩) (by decide) (by decide) (by decide) (by decide)
